import Mathlib

/-!
Verification development for the fsp-jira-analysis repository.

The repository extracts Jira issues into a flat table
(`jira_fsp_extracts.py`, with the lookup tables of `jira_references.py`)
and aggregates GitHub activity into zero-filled daily series with rolling
averages (`gh-engagement-report/generate_developer_report.py`).

Shallow embedding conventions:
  * timestamps are `Int` at day granularity (the code compares, takes
    min/max, and buckets to weeks; the epoch 1970-01-01 is a Thursday, so
    the Python `weekday()` of day `d` is `(d + 3) % 7`);
  * Python `None` is `Option.none`; a missing attribute (`getattr`/
    `hasattr`) is likewise `none` / the empty list;
  * pandas `DataFrame`s are `List`s of records, `df.at` writes are
    `List.set`, and `df[df['Issue Key'] == k]` with `.values[0]` is
    `List.find?` on the key.
-/

/-! ### Reference tables (`jira_references.py`) -/

def DONE_STATUSES : List String := ["GTM", "Done", "Won't Do", "Resolved"]

def IN_QA_VALIDATION_STATUSES : List String :=
  ["QA Ready", "In QA", "Ready for Integration", "Passed Integration", "Parked",
   "Passed Manual"]

def IN_DEV_VALIDATION_STATUSES : List String :=
  ["Code Review", "Merged", "Product Acceptance"]

def IN_DEV_STATUSES : List String := ["In Progress", "Development", "In Development"]

def ENG_BACKLOG_STATUSES : List String :=
  ["Selected for Development", "Ready for Dev", "Ready", "Ready for Planning",
   "Ready for Development", "Refined"]

def PM_BACKLOG_STATUSES : List String :=
  ["Backlog", "Ready for Refinement", "Discovery", "Needs Design"]

/-- Modelled from the spec: `jira_fsp_extracts.py` reads a list
`IN_VALIDATION_STATUSES` that is not defined in any file under `src/`
(`jira_references.py` only defines the QA and dev validation splits above).
The spec describes a single static membership table for the Validation
phase, so the missing list is modelled as the union of the two splits. -/
def IN_VALIDATION_STATUSES : List String :=
  IN_QA_VALIDATION_STATUSES ++ IN_DEV_VALIDATION_STATUSES

def PLANNING_ISSUE_TYPES : List String := ["Theme", "Initiative", "Release"]

def EPIC_ISSUE_TYPES : List String := ["Epic"]

def STANDARD_ISSUE_TYPES : List String :=
  ["Bug", "DevOps Task", "Story", "Support", "Task", "Test"]

def SUB_TASK_ISSUE_TYPES : List String :=
  ["Defect", "DevOps Sub-task", "Integration Tests", "Product Acceptance Change",
   "Sub-task"]

def TESTING_ISSUE_TYPES : List String :=
  ["Test Execution", "Xray Test", "Test Set", "Test Plan"]

def DEFECT_ISSUE_TYPES_TO_CATEGORY : List (String × String) :=
  [("Bug", "Escaped Defect"),
   ("Defect", "Internal Identified Defect"),
   ("Product Acceptance Change", "Product Identified Defect"),
   ("Story", "Feature Work"),
   ("Task", "Feature Work"),
   ("Support", "Support Work")]

/-! ### Input data model (one Jira issue as delivered by the tracker client) -/

/-- One fix version attached to an issue; `releaseDate` is `none` when the
version object has no `releaseDate` attribute. -/
structure FixVersion where
  name : String
  releaseDate : Option Int
  deriving DecidableEq

/-- One entry of a changelog history: `item.field` and `item.toString`
(the new value) in the source. -/
structure HistItem where
  field : String
  toString : String
  deriving DecidableEq

/-- One changelog history: its `created` timestamp and its items. -/
structure History where
  created : Int
  items : List HistItem
  deriving DecidableEq

/-- The fields of one issue consumed by `fetch_jira_issues_to_dataframe`. -/
structure TicketInput where
  key : String
  summary : String
  assignee : Option String
  status : String
  resolution : Option String
  storyPoints : Option Rat
  created : Int
  resolutiondate : Option Int
  issuetype : String
  parent : Option String
  zendeskRaw : Option Nat
  fixVersions : List FixVersion
  changelog : List History
  deriving DecidableEq

/-- One row of the resulting DataFrame, one field per output column. -/
structure Record where
  issueKey : String
  summary : String
  assignee : Option String
  status : String
  statusCategory : Option String
  storyPoints : Option Rat
  resolution : Option String
  createdDate : Int
  createdWeek : Int
  pmBacklogDate : Option Int
  engBacklogDate : Option Int
  devDate : Option Int
  validationDate : Option Int
  doneDate : Option Int
  releaseDate : Option Int
  releaseVersion : Option String
  resolutionDate : Option Int
  resolutionWeek : Option Int
  issueType : String
  zendeskTicketCount : Nat
  issueTypeCategory : Option String
  defectCategory : String
  parentStory : Option String
  parentStoryName : Option String
  parentEpic : Option String
  parentEpicName : Option String
  parentInitiative : Option String
  parentInitiativeName : Option String
  parentTheme : Option String
  deriving DecidableEq, Inhabited

/-! ### Category rules (lines 64-95 of `jira_fsp_extracts.py`) -/

/-- The issue-type classification chain; `none` is the Python `None` left in
place when the final `else` only prints a mapping error. -/
def issueTypeCategoryOf (issue_type : String) : Option String :=
  if issue_type ∈ PLANNING_ISSUE_TYPES then some "PLANNING"
  else if issue_type ∈ EPIC_ISSUE_TYPES then some "EPIC"
  else if issue_type ∈ STANDARD_ISSUE_TYPES then some "STANDARD"
  else if issue_type ∈ TESTING_ISSUE_TYPES then some "TESTING"
  else if issue_type ∈ SUB_TASK_ISSUE_TYPES then some "SUBTASK"
  else none

/-- The status classification chain; `none` is the Python `None` left in
place when the final `else` only prints a mapping error. -/
def statusCategoryOf (status : String) : Option String :=
  if status ∈ DONE_STATUSES then some "Done"
  else if status ∈ IN_VALIDATION_STATUSES then some "Validation"
  else if status ∈ IN_DEV_STATUSES then some "Development"
  else if status ∈ ENG_BACKLOG_STATUSES then some "Eng Backlog"
  else if status ∈ PM_BACKLOG_STATUSES then some "PM Backlog"
  else none

/-! ### Timeline scan (lines 127-188 of `jira_fsp_extracts.py`) -/

/-- The four mutable phase-entry dates of the changelog loop. -/
structure ScanState where
  done_date : Option Int
  validation_date : Option Int
  dev_date : Option Int
  eng_backlog_date : Option Int
  deriving DecidableEq

def ScanState.initial : ScanState := ⟨none, none, none, none⟩

/-- Body of the inner `for item in history.items` loop. -/
def scanItem (changed_date : Int) (st : ScanState) (item : HistItem) : ScanState :=
  if item.field = "status" then
    if item.toString ∈ DONE_STATUSES then
      match st.done_date with
      | none => { st with done_date := some changed_date }
      | some d => if changed_date > d then { st with done_date := some changed_date } else st
    else if item.toString ∈ IN_VALIDATION_STATUSES then
      match st.validation_date with
      | none => { st with validation_date := some changed_date }
      | some d => if changed_date < d then { st with validation_date := some changed_date } else st
    else if item.toString ∈ IN_DEV_STATUSES then
      match st.dev_date with
      | none => { st with dev_date := some changed_date }
      | some d => if changed_date ≤ d then { st with dev_date := some changed_date } else st
    else if item.toString ∈ ENG_BACKLOG_STATUSES then
      match st.eng_backlog_date with
      | none => { st with eng_backlog_date := some changed_date }
      | some d => if changed_date < d then { st with eng_backlog_date := some changed_date } else st
    else st
  else st

/-- Body of the outer `for history in changelog.histories` loop. -/
def scanHistory (st : ScanState) (h : History) : ScanState :=
  h.items.foldl (scanItem h.created) st

/-- The full changelog scan starting from all-`None` dates. -/
def scanChangelog (histories : List History) : ScanState :=
  histories.foldl scanHistory ScanState.initial

/-- Regression cleanup (lines 167-181): dates of phases later than the
current status's phase are discarded. -/
def regressionCleanup (status : String) (st : ScanState) : ScanState :=
  if status ∈ IN_VALIDATION_STATUSES then
    { st with done_date := none }
  else if status ∈ IN_DEV_STATUSES then
    { st with done_date := none, validation_date := none }
  else if status ∈ ENG_BACKLOG_STATUSES then
    { st with done_date := none, validation_date := none, dev_date := none }
  else if status ∈ PM_BACKLOG_STATUSES then
    { st with done_date := none, validation_date := none, dev_date := none,
              eng_backlog_date := none }
  else st

/-! ### Remaining per-issue derivations -/

/-- Week bucketing (lines 201-212): subtract `(weekday + 1) % 7` days, so
weeks start on Sunday.  At day granularity `weekday d = (d + 3) % 7`. -/
def weekStart (d : Int) : Int := d - (d + 4) % 7

/-- The fix-version loop (lines 107-117): keep the earliest release date
seen (strictly earlier replaces) together with its version name. -/
def pickRelease (versions : List FixVersion) : Option Int × Option String :=
  versions.foldl
    (fun acc v =>
      match v.releaseDate with
      | none => acc
      | some rd =>
        match acc.1 with
        | none => (some rd, some v.name)
        | some cur => if rd < cur then (some rd, some v.name) else acc)
    (none, none)

/-- Defect category (lines 102-105): issue-type lookup with default
"Other", overridden whenever the Zendesk ticket count is positive. -/
def defectCategoryOf (issue_type : String) (zendesk_ticket_count : Nat) : String :=
  let base := (DEFECT_ISSUE_TYPES_TO_CATEGORY.lookup issue_type).getD "Other"
  if zendesk_ticket_count > 0 then "Customer Impacting Defect" else base

/-- Processing of one issue inside the `for issue in issues` loop
(lines 58-270).  Returns `none` exactly when the loop hits `continue`
(an unresolved "Won't Do" ticket is skipped). -/
def extractIssue (issue : TicketInput) : Option Record :=
  let issue_type := issue.issuetype
  let issue_type_category := issueTypeCategoryOf issue_type
  let status := issue.status
  let status_category := statusCategoryOf status
  let zendesk_ticket_count := issue.zendeskRaw.getD 0
  let defect_category := defectCategoryOf issue_type zendesk_ticket_count
  let release := pickRelease issue.fixVersions
  let created_date := issue.created
  let st := regressionCleanup status (scanChangelog issue.changelog)
  let pm_backlog_date : Option Int := some created_date
  let resolved : Option (Option String × Option Int) :=
    if issue.resolution = none ∧ status = "Done" then
      some (some "Done", st.done_date)
    else if issue.resolution = none ∧ status = "Won't Do" then
      none
    else
      some (issue.resolution, issue.resolutiondate)
  match resolved with
  | none => none
  | some (resolution, resolution_date) =>
    let created_week := weekStart created_date
    let resolution_week := resolution_date.map weekStart
    let parent := issue.parent
    let parents : Option String × Option String × Option String × Option String :=
      match issue_type_category with
      | some "PLANNING" => (none, none, none, parent)
      | some "EPIC" => (none, none, parent, none)
      | some "SUBTASK" => (parent, none, none, none)
      | some "STANDARD" => (none, parent, none, none)
      | some "TESTING" => (none, none, none, none)
      | _ => (none, none, none, none)
    some
      { issueKey := issue.key
        summary := issue.summary
        assignee := issue.assignee
        status := status
        statusCategory := status_category
        storyPoints := issue.storyPoints
        resolution := resolution
        createdDate := created_date
        createdWeek := created_week
        pmBacklogDate := pm_backlog_date
        engBacklogDate := st.eng_backlog_date
        devDate := st.dev_date
        validationDate := st.validation_date
        doneDate := st.done_date
        releaseDate := release.1
        releaseVersion := release.2
        resolutionDate := resolution_date
        resolutionWeek := resolution_week
        issueType := issue_type
        zendeskTicketCount := zendesk_ticket_count
        issueTypeCategory := issue_type_category
        defectCategory := defect_category
        parentStory := parents.1
        parentStoryName := none
        parentEpic := parents.2.1
        parentEpicName := none
        parentInitiative := parents.2.2.1
        parentInitiativeName := none
        parentTheme := parents.2.2.2 }

/-! ### Hierarchy resolver (lines 272-302 of `jira_fsp_extracts.py`) -/

/-- Python truthiness of an optional string cell: `None` and the empty
string are falsy (`if row['Parent ...']:`). -/
def truthy : Option String → Bool
  | none => false
  | some s => s ≠ ""

/-- `df[df['Issue Key'] == k]` followed by `.values[0]`: the first row of
the current table whose issue key equals `k`. -/
def findByKey (rows : List Record) (k : String) : Option Record :=
  rows.find? (fun r => r.issueKey == k)

/-- One resolution pass: the parent-link column it triggers on and the
field copies it performs from the found parent row. -/
structure PassSpec where
  trig : Record → Option String
  app : Record → Record → Record

/-- The per-row update of a pass against the current table state: skip
falsy parent links and missing parents, otherwise copy from the first
matching parent row. -/
def updOf (ps : PassSpec) (rows : List Record) (r : Record) : Record :=
  match ps.trig r with
  | none => r
  | some k =>
    if k = "" then r
    else
      match findByKey rows k with
      | some p => ps.app r p
      | none => r

/-- `for i, row in df.iterrows(): ... df.at[i, ...] = ...`: a single
in-place left-to-right sweep; each step reads its row and performs its
lookups against the partially updated table. -/
def sweep (upd : List Record → Record → Record) (rows : List Record) : List Record :=
  (List.range rows.length).foldl
    (fun rs i =>
      match rs[i]? with
      | some r => rs.set i (upd rs r)
      | none => rs)
    rows

/-- Field copies of the initiative-level pass (lines 275-280). -/
def app1 (r p : Record) : Record :=
  { r with parentInitiativeName := some p.summary
           parentTheme := p.parentTheme }

/-- Field copies of the epic-level pass (lines 282-289). -/
def app2 (r p : Record) : Record :=
  { r with parentEpicName := some p.summary
           parentInitiative := p.parentInitiative
           parentInitiativeName := p.parentInitiativeName
           parentTheme := p.parentTheme }

/-- Field copies of the story-level pass (lines 291-300). -/
def app3 (r p : Record) : Record :=
  { r with parentStoryName := some p.summary
           parentEpic := p.parentEpic
           parentEpicName := p.parentEpicName
           parentInitiative := p.parentInitiative
           parentInitiativeName := p.parentInitiativeName
           parentTheme := p.parentTheme }

def pass1 : PassSpec := ⟨fun r => r.parentInitiative, app1⟩

def pass2 : PassSpec := ⟨fun r => r.parentEpic, app2⟩

def pass3 : PassSpec := ⟨fun r => r.parentStory, app3⟩

def runPass (ps : PassSpec) (rows : List Record) : List Record :=
  sweep (updOf ps) rows

/-- The three hierarchy-resolution passes in source order: initiative
level, then epic level, then story level. -/
def resolveHierarchy (rows : List Record) : List Record :=
  runPass pass3 (runPass pass2 (runPass pass1 rows))

/-- `fetch_jira_issues_to_dataframe`, given the issues the tracker client
returned for the query: per-issue extraction (skipped issues contribute no
row) followed by the three hierarchy passes. -/
def fetch_jira_issues_to_dataframe (issues : List TicketInput) : List Record :=
  resolveHierarchy (issues.filterMap extractIssue)

/-! ### Aggregator (`gh-engagement-report/generate_developer_report.py`) -/

/-- One daily-aggregate row (one author, one calendar day, one count
column standing for the aggregated metric). -/
structure AggRow where
  author : String
  date : Int
  count : Int
  deriving DecidableEq

/-- One row after the left outer join, before `fillna`: the count is
nullable exactly like the merged DataFrame column. -/
structure MergedRow where
  author : String
  date : Int
  count : Option Int
  deriving DecidableEq

/-- `[(author, date) for author in authors for date in date_range]`. -/
def author_dates (authors : List String) (date_range : List Int) : List (String × Int) :=
  authors.flatMap (fun a => date_range.map (fun d => (a, d)))

/-- `complete_df.merge(df, on=['author', 'date'], how='left')`: every
(author, date) pair keeps its matching aggregate rows, or one null-count
row when there is no match. -/
def mergeLeft (complete : List (String × Int)) (df : List AggRow) : List MergedRow :=
  complete.flatMap
    (fun ad =>
      match df.filter (fun r => r.author == ad.1 && r.date == ad.2) with
      | [] => [⟨ad.1, ad.2, none⟩]
      | ms => ms.map (fun m => ⟨ad.1, ad.2, some m.count⟩))

/-- `.fillna(0)`: null counts become zero, present counts are kept. -/
def fillna0 (rows : List MergedRow) : List MergedRow :=
  rows.map (fun r => { r with count := some (r.count.getD 0) })

/-- `fill_missing_dates(df, date_range, authors)` (lines 103-111). -/
def fill_missing_dates (df : List AggRow) (date_range : List Int)
    (authors : List String) : List MergedRow :=
  fillna0 (mergeLeft (author_dates authors date_range) df)

/-- The dates a centered rolling window of width `window` covers at
position `i` of a series of length `n` (pandas puts the longer half of an
even window on the right: positions `i - (window-1)/2 .. i + window/2`). -/
def windowIndices (window i n : Nat) : List Nat :=
  (List.range n).filter (fun j => i - (window - 1) / 2 ≤ j ∧ j ≤ i + window / 2)

/-- The data points (non-null values) a centered window sees at `i`. -/
def windowData (window : Nat) (xs : List (Option Rat)) (i : Nat) : List Rat :=
  (windowIndices window i xs.length).filterMap (fun j => (xs[j]?).join)

/-- `series.rolling(window=w, center=True, min_periods=m).mean()`: at each
position, the mean of the data points in the centered window, or null when
there are fewer than `m` of them. -/
def rollingMeanCentered (window min_periods : Nat) (xs : List (Option Rat)) :
    List (Option Rat) :=
  (List.range xs.length).map
    (fun i =>
      let pts := windowData window xs i
      if pts.length < min_periods then none
      else some (pts.sum / pts.length))

/-- Team-wide smoothing: `rolling(window=14, center=True, min_periods=3)`
(lines 146-147 and 152). -/
def teamSmoothed (xs : List (Option Rat)) : List (Option Rat) :=
  rollingMeanCentered 14 3 xs

/-- Per-developer smoothing: `rolling(window=21, center=True,
min_periods=3)` (lines 179-180 and 184). -/
def devSmoothed (xs : List (Option Rat)) : List (Option Rat) :=
  rollingMeanCentered 21 3 xs

/-! ### Spec-side definitions used to state the claims -/

/-- The phase-entry dates of a record that are present, in phase order
(PM Backlog, Eng Backlog, Development, Validation, Done). -/
def presentPhaseDates (r : Record) : List Int :=
  [r.pmBacklogDate, r.engBacklogDate, r.devDate, r.validationDate, r.doneDate].filterMap id

/-- The monotonicity property claimed of the phase-entry dates: the present
ones are pairwise non-decreasing in phase order. -/
def phasesMonotone (r : Record) : Prop :=
  (presentPhaseDates r).Pairwise (· ≤ ·)

instance (r : Record) : Decidable (phasesMonotone r) :=
  inferInstanceAs (Decidable (List.Pairwise _ _))

/-- The five phase-entry date columns of a row, as a tuple. -/
def phaseDatesOf (r : Record) :
    Option Int × Option Int × Option Int × Option Int × Option Int :=
  (r.pmBacklogDate, r.engBacklogDate, r.devDate, r.validationDate, r.doneDate)

/-- The timestamps of the change events of one history whose changed field
is the status and whose new value maps to the Done phase. -/
def doneTimesOfHistory (h : History) : List Int :=
  h.items.filterMap
    (fun item =>
      if item.field = "status" ∧ item.toString ∈ DONE_STATUSES then some h.created
      else none)

/-- All Done-phase change-event timestamps of a changelog, following the
spec's words: the done entry is the maximum of this list. -/
def doneEventTimes (histories : List History) : List Int :=
  histories.flatMap doneTimesOfHistory

/-- The accumulator update the scan's Done branch performs, isolated. -/
def maxStep (acc : Option Int) (t : Int) : Option Int :=
  match acc with
  | none => some t
  | some d => if t > d then some t else acc

/-- pandas `date_range(start, periods=len, freq='D')` at day granularity:
the contiguous range of `len` days starting at `start`. -/
def dateRangeOf (start : Int) (len : Nat) : List Int :=
  (List.range len).map (fun i => start + Int.ofNat i)

/-! ### Well-formed hierarchy tables (for the amended idempotence claim) -/

/-- A row none of the three passes ever triggers on: no truthy parent
link at all (a well-formed initiative row). -/
def isL0 (r : Record) : Bool :=
  !truthy r.parentInitiative && !truthy r.parentEpic && !truthy r.parentStory

/-- A row only the initiative pass can trigger on (a well-formed epic
row): it may carry a parent-initiative link but no epic/story link. -/
def isL1 (r : Record) : Bool :=
  !truthy r.parentEpic && !truthy r.parentStory

/-- A row the story pass never triggers on (a well-formed story row). -/
def isL2 (r : Record) : Bool :=
  !truthy r.parentStory

/-- At most one of the three parent links of a row is truthy (each ticket
category sets exactly one parent link at extraction). -/
def atMostOneLink (r : Record) : Bool :=
  !(truthy r.parentStory && truthy r.parentEpic) &&
  !(truthy r.parentStory && truthy r.parentInitiative) &&
  !(truthy r.parentEpic && truthy r.parentInitiative)

/-- When `link` is truthy and its key resolves in the table, the resolved
row satisfies `good`. -/
def linkTargetOk (rows : List Record) (link : Option String) (good : Record → Bool) : Bool :=
  match link with
  | none => true
  | some k =>
    if k = "" then true
    else
      match findByKey rows k with
      | none => true
      | some p => good p

/-- Level-respecting hierarchy table: every row carries at most one parent
link, parent-initiative links resolve to rows with no links of their own,
parent-epic links resolve to rows with at most an initiative link, and
parent-story links resolve to rows without a story link. -/
def WF (rows : List Record) : Prop :=
  ∀ r ∈ rows,
    atMostOneLink r = true ∧
    linkTargetOk rows r.parentInitiative isL0 = true ∧
    linkTargetOk rows r.parentEpic isL1 = true ∧
    linkTargetOk rows r.parentStory isL2 = true

instance (rows : List Record) : Decidable (WF rows) := by
  unfold WF
  infer_instance

/-! ### Pure descriptions of the sweeps (used to analyse the passes) -/

/-- The table state after a sweep has processed its first `n` rows, when
every lookup the sweep performed resolved to a row the sweep leaves
unchanged: processed rows updated against the original table, the rest
untouched. -/
def mapUpTo (u : List Record → Record → Record) (rows : List Record) (n : Nat) :
    List Record :=
  (rows.take n).map (u rows) ++ rows.drop n

/-- The initiative pass's per-row update against the original table. -/
def updF1 (rows : List Record) : Record → Record := updOf pass1 rows

/-- The table after a pure initiative pass. -/
def table1 (rows : List Record) : List Record := rows.map (updF1 rows)

/-- The epic pass's per-row update against the initiative-resolved table. -/
def updF2 (rows : List Record) : Record → Record := updOf pass2 (table1 rows)

/-- The table after pure initiative and epic passes. -/
def table2 (rows : List Record) : List Record := (table1 rows).map (updF2 rows)

/-- The story pass's per-row update against the epic-resolved table. -/
def updF3 (rows : List Record) : Record → Record := updOf pass3 (table2 rows)

/-- The pure three-pass resolution of one row. -/
def resolveFun (rows : List Record) (x : Record) : Record :=
  updF3 rows (updF2 rows (updF1 rows x))

/-- The pure three-pass resolution of the whole table. -/
def resolveMap (rows : List Record) : List Record := rows.map (resolveFun rows)

/-! ### Concrete inputs for the claims' scenarios and witnesses -/

/-- A ticket input with every optional field absent, to build scenario
tickets from. -/
def baseIssue : TicketInput :=
  { key := "", summary := "", assignee := none, status := "", resolution := none,
    storyPoints := none, created := 1, resolutiondate := none, issuetype := "",
    parent := none, zendeskRaw := none, fixVersions := [], changelog := [] }

/-- An otherwise empty record, to build hierarchy-table rows from. -/
def blankRecord : Record :=
  { issueKey := "", summary := "", assignee := none, status := "",
    statusCategory := none, storyPoints := none, resolution := none,
    createdDate := 0, createdWeek := 0, pmBacklogDate := none,
    engBacklogDate := none, devDate := none, validationDate := none,
    doneDate := none, releaseDate := none, releaseVersion := none,
    resolutionDate := none, resolutionWeek := none, issueType := "",
    zendeskTicketCount := 0, issueTypeCategory := none, defectCategory := "Other",
    parentStory := none, parentStoryName := none, parentEpic := none,
    parentEpicName := none, parentInitiative := none,
    parentInitiativeName := none, parentTheme := none }

/-- A ticket whose status string is in no membership table (C1 witness). -/
def c1issue : TicketInput :=
  { baseIssue with
    key := "W-1"
    issuetype := "Story"
    status := "Mystery Status" }

/-- A ticket currently in Development with a rich event history
(C2 witness). -/
def c2issue : TicketInput :=
  { baseIssue with
    key := "W-2"
    issuetype := "Story"
    status := "In Progress"
    changelog := [⟨3, [⟨"status", "In Progress"⟩]⟩, ⟨9, [⟨"status", "Done"⟩]⟩,
                  ⟨12, [⟨"status", "In QA"⟩]⟩] }

/-- C3 counterexample: created day 1, moved to Development (day 3), back
to the Eng Backlog (day 5), to Development again (day 7), currently in
Development; the scan keeps eng-backlog-entry 5 > development-entry 3. -/
def c3issue : TicketInput :=
  { baseIssue with
    key := "C-3"
    issuetype := "Story"
    status := "In Progress"
    created := 1
    changelog := [⟨3, [⟨"status", "In Progress"⟩]⟩, ⟨5, [⟨"status", "Ready"⟩]⟩,
                  ⟨7, [⟨"status", "In Progress"⟩]⟩] }

/-- Witness ticket for the amended C3: one Development event after
creation. -/
def c3wIssue : TicketInput :=
  { baseIssue with
    key := "W-3"
    issuetype := "Story"
    status := "In Progress"
    created := 1
    changelog := [⟨3, [⟨"status", "In Progress"⟩]⟩] }

/-- The record c3wIssue extracts to. -/
def c3wRec : Record := (extractIssue c3wIssue).getD default

/-- Spec scenario 2 (C4): two Done events at days 10 and 20, currently
Done. -/
def c4issue : TicketInput :=
  { baseIssue with
    key := "C-4"
    issuetype := "Story"
    status := "Done"
    changelog := [⟨10, [⟨"status", "Done"⟩]⟩, ⟨20, [⟨"status", "Done"⟩]⟩] }

/-- An abandoned ticket: no resolution, current status "Won't Do"
(C5 witness). -/
def c5issue : TicketInput :=
  { baseIssue with
    key := "W-5"
    issuetype := "Story"
    status := "Won't Do" }

/-- A second ticket that does survive extraction (C5 witness context). -/
def c5other : TicketInput :=
  { baseIssue with
    key := "W-5b"
    issuetype := "Story"
    status := "Backlog" }

/-- Spec scenario 3 (C6): the subtask. -/
def c6sub : TicketInput :=
  { baseIssue with
    key := "S"
    summary := "Sub work"
    issuetype := "Sub-task"
    status := "Backlog"
    parent := some "STORY1" }

/-- Spec scenario 3 (C6): the story under EPIC1. -/
def c6story : TicketInput :=
  { baseIssue with
    key := "STORY1"
    summary := "Story work"
    issuetype := "Story"
    status := "Backlog"
    parent := some "EPIC1" }

/-- Spec scenario 3 (C6): the epic "Epic A" under INIT1. -/
def c6epic : TicketInput :=
  { baseIssue with
    key := "EPIC1"
    summary := "Epic A"
    issuetype := "Epic"
    status := "Backlog"
    parent := some "INIT1" }

/-- Spec scenario 3 (C6): the initiative "Init A". -/
def c6init : TicketInput :=
  { baseIssue with
    key := "INIT1"
    summary := "Init A"
    issuetype := "Initiative"
    status := "Backlog" }

/-- C7 counterexample table: epic-like row A whose parent-initiative link
names B, which itself carries a parent-initiative link to C — an acyclic
chain that is not level-respecting.  Pass 1 updates A from B before
updating B from C, so a second run copies B's new theme into A. -/
def c7rows : List Record :=
  [{ blankRecord with
     issueKey := "A"
     summary := "SA"
     parentInitiative := some "B" },
   { blankRecord with
     issueKey := "B"
     summary := "SB"
     parentInitiative := some "C" },
   { blankRecord with
     issueKey := "C"
     summary := "SC"
     parentTheme := some "T" }]

/-- A level-respecting four-row table (subtask → story → epic →
initiative), witness for the amended C7. -/
def c7wfRows : List Record :=
  [{ blankRecord with
     issueKey := "S"
     summary := "Sub"
     parentStory := some "STORY1" },
   { blankRecord with
     issueKey := "STORY1"
     summary := "Story"
     parentEpic := some "EPIC1" },
   { blankRecord with
     issueKey := "EPIC1"
     summary := "Epic A"
     parentInitiative := some "INIT1" },
   { blankRecord with
     issueKey := "INIT1"
     summary := "Init A"
     parentTheme := some "TH" }]

/-- C8 witness input: one author with one PR on day 2 of the range
(spec scenario 5). -/
def c8df : List AggRow := [⟨"alice", 2, 1⟩]

/-- C9 witness series: two data points, fewer than `min_periods`. -/
def c9xs : List (Option Rat) := [some 1, some 2]

/-- C10 witness: a Task with two escaped incidents. -/
def c10a : TicketInput :=
  { baseIssue with
    key := "W-10a"
    issuetype := "Task"
    status := "Backlog"
    zendeskRaw := some 2 }

/-- C10 witness: a Story with no escaped incidents. -/
def c10b : TicketInput :=
  { baseIssue with
    key := "W-10b"
    issuetype := "Story"
    status := "Backlog" }

/-- C10 witness: an issue type absent from the defect mapping. -/
def c10c : TicketInput :=
  { baseIssue with
    key := "W-10c"
    issuetype := "Epic"
    status := "Backlog" }

/-! ### Extractor lemmas -/

theorem extractIssue_shape (issue : TicketInput) (r : Record)
    (h : extractIssue issue = some r) :
    r.statusCategory = statusCategoryOf issue.status ∧
    r.pmBacklogDate = some issue.created ∧
    r.engBacklogDate =
      (regressionCleanup issue.status (scanChangelog issue.changelog)).eng_backlog_date ∧
    r.devDate =
      (regressionCleanup issue.status (scanChangelog issue.changelog)).dev_date ∧
    r.validationDate =
      (regressionCleanup issue.status (scanChangelog issue.changelog)).validation_date ∧
    r.doneDate =
      (regressionCleanup issue.status (scanChangelog issue.changelog)).done_date ∧
    r.defectCategory = defectCategoryOf issue.issuetype (issue.zendeskRaw.getD 0) := by
  simp only [extractIssue] at h
  split at h
  · exact absurd h (by simp)
  · rw [Option.some.injEq] at h
    subst h
    exact ⟨rfl, rfl, rfl, rfl, rfl, rfl, rfl⟩

theorem extractIssue_isSome (issue : TicketInput) (hne : issue.status ≠ "Won't Do") :
    ∃ r, extractIssue issue = some r := by
  simp only [extractIssue]
  by_cases hc1 : issue.resolution = none ∧ issue.status = "Done"
  · rw [if_pos hc1]
    exact ⟨_, rfl⟩
  · by_cases hc2 : issue.resolution = none ∧ issue.status = "Won't Do"
    · exact absurd hc2.2 hne
    · rw [if_neg hc1, if_neg hc2]
      exact ⟨_, rfl⟩

theorem statusCategoryOf_eq_none (status : String)
    (h1 : status ∉ DONE_STATUSES) (h2 : status ∉ IN_VALIDATION_STATUSES)
    (h3 : status ∉ IN_DEV_STATUSES) (h4 : status ∉ ENG_BACKLOG_STATUSES)
    (h5 : status ∉ PM_BACKLOG_STATUSES) :
    statusCategoryOf status = none := by
  unfold statusCategoryOf
  rw [if_neg h1, if_neg h2, if_neg h3, if_neg h4, if_neg h5]

/-- C1: a ticket whose current status is in no status membership table is
not skipped — its record still comes out of extraction (`.map` applied to
a `some` result), with the status category left unmapped (`none`, the
spec's UNKNOWN). -/
theorem C1_unmapped_status_proceeds_with_unknown (issue : TicketInput)
    (h1 : issue.status ∉ DONE_STATUSES) (h2 : issue.status ∉ IN_VALIDATION_STATUSES)
    (h3 : issue.status ∉ IN_DEV_STATUSES) (h4 : issue.status ∉ ENG_BACKLOG_STATUSES)
    (h5 : issue.status ∉ PM_BACKLOG_STATUSES) :
    (extractIssue issue).map Record.statusCategory = some none := by
  have hne : issue.status ≠ "Won't Do" := by
    intro he
    exact h1 (by rw [he]; decide)
  obtain ⟨r, hr⟩ := extractIssue_isSome issue hne
  rw [hr]
  have hcat := (extractIssue_shape issue r hr).1
  rw [Option.map_some', hcat, statusCategoryOf_eq_none issue.status h1 h2 h3 h4 h5]

/-- Witness for C1: a concrete ticket with the unmapped status
"Mystery Status". -/
theorem C1_witness : (extractIssue c1issue).map Record.statusCategory = some none :=
  C1_unmapped_status_proceeds_with_unknown c1issue (by decide) (by decide) (by decide)
    (by decide) (by decide)

/-- C2: a ticket whose current status maps to the Development phase always
produces a record, and its Validation and Done entry dates are both absent,
whatever the changelog contained. -/
theorem C2_development_hides_validation_and_done (issue : TicketInput)
    (h : issue.status ∈ IN_DEV_STATUSES) :
    (extractIssue issue).map (fun r => (r.validationDate, r.doneDate)) =
      some (none, none) := by
  have hne : issue.status ≠ "Won't Do" := by
    intro he
    rw [he] at h
    exact absurd h (by decide)
  obtain ⟨r, hr⟩ := extractIssue_isSome issue hne
  rw [hr, Option.map_some']
  obtain ⟨-, -, -, -, hval, hdone, -⟩ := extractIssue_shape issue r hr
  rw [hval, hdone]
  have hnv : issue.status ∉ IN_VALIDATION_STATUSES := by
    intro hv
    have hcases := h
    simp only [IN_DEV_STATUSES, List.mem_cons, List.not_mem_nil, or_false] at hcases
    rcases hcases with he | he | he <;> rw [he] at hv <;> exact absurd hv (by decide)
  unfold regressionCleanup
  rw [if_neg hnv, if_pos h]

/-- Witness for C2: a concrete ticket currently "In Progress" whose
changelog contains Done and In QA events. -/
theorem C2_witness :
    (extractIssue c2issue).map (fun r => (r.validationDate, r.doneDate)) =
      some (none, none) :=
  C2_development_hides_validation_and_done c2issue (by decide)

/-- C5: an issue with no recorded resolution and current status "Won't Do"
is dropped by the `continue`: it extracts to no record, and the resulting
table of any issue list starting with it is the table of the rest. -/
theorem C5_unresolved_wont_do_excluded (issue : TicketInput) (rest : List TicketInput)
    (hres : issue.resolution = none) (hst : issue.status = "Won't Do") :
    extractIssue issue = none ∧
    fetch_jira_issues_to_dataframe (issue :: rest) =
      fetch_jira_issues_to_dataframe rest := by
  have hnone : extractIssue issue = none := by
    simp only [extractIssue]
    have hc1 : ¬(issue.resolution = none ∧ issue.status = "Done") := by
      rintro ⟨-, hd⟩
      rw [hst] at hd
      exact absurd hd (by decide)
    rw [if_neg hc1, if_pos ⟨hres, hst⟩]
  refine ⟨hnone, ?_⟩
  unfold fetch_jira_issues_to_dataframe
  rw [List.filterMap_cons, hnone]

/-- Witness for C5: the concrete abandoned ticket c5issue disappears from
the output over the concrete list [c5issue, c5other]. -/
theorem C5_witness :
    extractIssue c5issue = none ∧
    fetch_jira_issues_to_dataframe [c5issue, c5other] =
      fetch_jira_issues_to_dataframe [c5other] :=
  C5_unresolved_wont_do_excluded c5issue [c5other] (by decide) (by decide)

/-- C10: a positive escaped-incident (Zendesk) count forces the defect
category "Customer Impacting Defect"; otherwise the defect category is the
issue-type mapping's value with default "Other". -/
theorem C10_defect_category_rule (issue : TicketInput) (r : Record)
    (h : extractIssue issue = some r) :
    (0 < issue.zendeskRaw.getD 0 → r.defectCategory = "Customer Impacting Defect") ∧
    (issue.zendeskRaw.getD 0 = 0 →
      r.defectCategory =
        (DEFECT_ISSUE_TYPES_TO_CATEGORY.lookup issue.issuetype).getD "Other") := by
  have hd := (extractIssue_shape issue r h).2.2.2.2.2.2
  constructor
  · intro hz
    rw [hd]
    unfold defectCategoryOf
    rw [if_pos hz]
  · intro hz
    rw [hd]
    unfold defectCategoryOf
    rw [hz]
    simp

/-- Witness for C10: a Task with two escaped incidents is customer
impacting, a clean Story keeps "Feature Work", a clean Epic (absent from
the mapping) defaults to "Other". -/
theorem C10_witness :
    ((extractIssue c10a).getD default).defectCategory = "Customer Impacting Defect" ∧
    ((extractIssue c10b).getD default).defectCategory = "Feature Work" ∧
    ((extractIssue c10c).getD default).defectCategory = "Other" := by
  refine ⟨(C10_defect_category_rule c10a ((extractIssue c10a).getD default)
            (by decide)).1 (by decide), ?_, ?_⟩
  · have h := (C10_defect_category_rule c10b ((extractIssue c10b).getD default)
      (by decide)).2 (by decide)
    rw [h]
    decide
  · have h := (C10_defect_category_rule c10c ((extractIssue c10c).getD default)
      (by decide)).2 (by decide)
    rw [h]
    decide

/-! ### Done-branch analysis of the scan (C4) -/

theorem scanItem_done (cd : Int) (st : ScanState) (item : HistItem) :
    (scanItem cd st item).done_date =
      if item.field = "status" ∧ item.toString ∈ DONE_STATUSES then
        maxStep st.done_date cd
      else st.done_date := by
  unfold scanItem maxStep
  by_cases hf : item.field = "status"
  · by_cases hd : item.toString ∈ DONE_STATUSES
    · rw [if_pos hf, if_pos hd, if_pos ⟨hf, hd⟩]
      cases hdd : st.done_date with
      | none => rfl
      | some d =>
        show (if cd > d then _ else st).done_date = if cd > d then some cd else some d
        by_cases hlt : cd > d
        · rw [if_pos hlt, if_pos hlt]
        · rw [if_neg hlt, if_neg hlt, hdd]
    · rw [if_pos hf, if_neg hd,
        if_neg (show ¬(item.field = "status" ∧ item.toString ∈ DONE_STATUSES) from
          fun hc => hd hc.2)]
      repeat' split
      all_goals rfl
  · rw [if_neg hf,
      if_neg (show ¬(item.field = "status" ∧ item.toString ∈ DONE_STATUSES) from
        fun hc => hf hc.1)]

theorem foldl_scanItem_done (cd : Int) (items : List HistItem) (st : ScanState) :
    (items.foldl (scanItem cd) st).done_date =
      (items.filterMap
        (fun item =>
          if item.field = "status" ∧ item.toString ∈ DONE_STATUSES then some cd
          else none)).foldl maxStep st.done_date := by
  induction items generalizing st with
  | nil => rfl
  | cons i is ih =>
    rw [List.foldl_cons, ih, List.filterMap_cons]
    by_cases hc : i.field = "status" ∧ i.toString ∈ DONE_STATUSES
    · rw [scanItem_done, if_pos hc, if_pos hc]
      rfl
    · rw [scanItem_done, if_neg hc, if_neg hc]

theorem scanHistory_done (st : ScanState) (h : History) :
    (scanHistory st h).done_date = (doneTimesOfHistory h).foldl maxStep st.done_date :=
  foldl_scanItem_done h.created h.items st

theorem scanChangelog_done_foldl (hs : List History) :
    ∀ st : ScanState,
      (hs.foldl scanHistory st).done_date =
        (hs.flatMap doneTimesOfHistory).foldl maxStep st.done_date := by
  induction hs with
  | nil => intro st; rfl
  | cons h t ih =>
    intro st
    rw [List.foldl_cons, ih, List.flatMap_cons, List.foldl_append, scanHistory_done]

theorem foldl_maxStep_some (l : List Int) : ∀ a : Int,
    l.foldl maxStep (some a) = some (l.foldl max a) := by
  induction l with
  | nil => intro a; rfl
  | cons t ts ih =>
    intro a
    rw [List.foldl_cons, List.foldl_cons]
    have hstep : maxStep (some a) t = some (max a t) := by
      show (if t > a then some t else some a) = some (max a t)
      rcases le_or_lt t a with hle | hlt
      · rw [if_neg (not_lt.mpr hle), max_eq_left hle]
      · rw [if_pos hlt, max_eq_right hlt.le]
    rw [hstep, ih]

theorem foldl_maxStep_none (l : List Int) : l.foldl maxStep none = l.max? := by
  cases l with
  | nil => rfl
  | cons a t =>
    rw [List.foldl_cons]
    show t.foldl maxStep (maxStep none a) = _
    rw [show maxStep none a = some a from rfl, foldl_maxStep_some]
    rfl

/-- C4: the event scan's Done entry is the maximum of the timestamps of
all status-change events whose new value maps to the Done phase; and on
spec scenario 2 (Done events at days 10 and 20, status "Done") the full
extraction reports done-entry 20. -/
theorem C4_done_entry_is_max :
    (∀ histories : List History,
        (scanChangelog histories).done_date = (doneEventTimes histories).max?) ∧
    (extractIssue c4issue).map Record.doneDate = some (some 20) := by
  constructor
  · intro hs
    unfold scanChangelog doneEventTimes
    rw [scanChangelog_done_foldl]
    exact foldl_maxStep_none _
  · decide

/-! ### Rolling-window smoothing (C9) -/

/-- C9: a position of a smoothed series whose centered window (14 days
team-wide, 21 days per-developer) holds fewer than 3 data points carries
no value at all — `none`, not zero. -/
theorem C9_sparse_window_undefined (xs : List (Option Rat)) (i : Nat)
    (hi : i < xs.length) :
    ((windowData 14 xs i).length < 3 → (teamSmoothed xs)[i]? = some none) ∧
    ((windowData 21 xs i).length < 3 → (devSmoothed xs)[i]? = some none) := by
  constructor
  · intro hcount
    unfold teamSmoothed rollingMeanCentered
    rw [List.getElem?_map, List.getElem?_range hi, Option.map_some']
    rw [if_pos hcount]
  · intro hcount
    unfold devSmoothed rollingMeanCentered
    rw [List.getElem?_map, List.getElem?_range hi, Option.map_some']
    rw [if_pos hcount]

/-- Witness for C9: a two-point series has fewer than 3 points in every
window, so both smoothers leave position 0 undefined. -/
theorem C9_witness :
    (teamSmoothed c9xs)[0]? = some none ∧ (devSmoothed c9xs)[0]? = some none :=
  ⟨(C9_sparse_window_undefined c9xs 0 (by decide)).1 (by decide),
   (C9_sparse_window_undefined c9xs 0 (by decide)).2 (by decide)⟩

/-- C6: spec scenario 3 end to end — after extraction and the three
passes, subtask S carries epic name "Epic A" and initiative name
"Init A" (and the intermediate rows are resolved as far as their own
level allows). -/
theorem C6_hierarchy_scenario :
    (fetch_jira_issues_to_dataframe [c6sub, c6story, c6epic, c6init]).map
        (fun r => (r.issueKey, r.parentEpicName, r.parentInitiativeName)) =
      [("S", some "Epic A", some "Init A"), ("STORY1", some "Epic A", some "Init A"),
       ("EPIC1", none, some "Init A"), ("INIT1", none, none)] := by
  decide

/-! ### Phase-date bounds (C3) -/

/-- C3 counterexample: ticket c3issue (Development at day 3, Eng Backlog
at day 5, Development at day 7, currently "In Progress") extracts to a
record whose present phase dates are not monotone — its eng-backlog entry
(5) exceeds its development entry (3). -/
theorem C3_counterexample :
    (extractIssue c3issue).map
        (fun r => (r.engBacklogDate, r.devDate, decide (phasesMonotone r))) =
      some (some 5, some 3, false) := by
  decide

theorem scanItem_validation_cases (cd : Int) (st : ScanState) (item : HistItem) :
    (scanItem cd st item).validation_date = st.validation_date ∨
    (scanItem cd st item).validation_date = some cd := by
  unfold scanItem
  repeat' split
  all_goals first | exact Or.inl rfl | exact Or.inr rfl

theorem scanItem_dev_cases (cd : Int) (st : ScanState) (item : HistItem) :
    (scanItem cd st item).dev_date = st.dev_date ∨
    (scanItem cd st item).dev_date = some cd := by
  unfold scanItem
  repeat' split
  all_goals first | exact Or.inl rfl | exact Or.inr rfl

theorem scanItem_eng_cases (cd : Int) (st : ScanState) (item : HistItem) :
    (scanItem cd st item).eng_backlog_date = st.eng_backlog_date ∨
    (scanItem cd st item).eng_backlog_date = some cd := by
  unfold scanItem
  repeat' split
  all_goals first | exact Or.inl rfl | exact Or.inr rfl

theorem scanItem_done_cases (cd : Int) (st : ScanState) (item : HistItem) :
    (scanItem cd st item).done_date = st.done_date ∨
    (scanItem cd st item).done_date = some cd := by
  unfold scanItem
  repeat' split
  all_goals first | exact Or.inl rfl | exact Or.inr rfl

/-- Every date the scan records is the timestamp of some history (for any
of the four state components). -/
theorem scan_proj_bound (proj : ScanState → Option Int)
    (hitem : ∀ (cd : Int) (st : ScanState) (item : HistItem),
      proj (scanItem cd st item) = proj st ∨ proj (scanItem cd st item) = some cd) :
    ∀ (hs : List History) (st : ScanState) (d : Int),
      proj (hs.foldl scanHistory st) = some d →
      proj st = some d ∨ ∃ h ∈ hs, d = h.created := by
  intro hs
  induction hs with
  | nil => intro st d hd; exact Or.inl hd
  | cons h t ih =>
    intro st d hd
    rw [List.foldl_cons] at hd
    rcases ih _ _ hd with hcase | ⟨h', hh', hd'⟩
    · have inner : ∀ (items : List HistItem) (st' : ScanState),
          proj (items.foldl (scanItem h.created) st') = some d →
          proj st' = some d ∨ d = h.created := by
        intro items
        induction items with
        | nil => intro st' hst'; exact Or.inl hst'
        | cons it its ihh =>
          intro st' hst'
          rw [List.foldl_cons] at hst'
          rcases ihh _ hst' with hc | hc
          · rcases hitem h.created st' it with he | he
            · rw [he] at hc
              exact Or.inl hc
            · rw [he] at hc
              exact Or.inr (Option.some.inj hc).symm
          · exact Or.inr hc
      rcases inner h.items st hcase with hc | hc
      · exact Or.inl hc
      · exact Or.inr ⟨h, List.mem_cons_self h t, hc⟩
    · exact Or.inr ⟨h', List.mem_cons_of_mem h hh', hd'⟩

/-- Regression cleanup either keeps a component or blanks it. -/
theorem regressionCleanup_cases (status : String) (st : ScanState) :
    ((regressionCleanup status st).done_date = st.done_date ∨
      (regressionCleanup status st).done_date = none) ∧
    ((regressionCleanup status st).validation_date = st.validation_date ∨
      (regressionCleanup status st).validation_date = none) ∧
    ((regressionCleanup status st).dev_date = st.dev_date ∨
      (regressionCleanup status st).dev_date = none) ∧
    ((regressionCleanup status st).eng_backlog_date = st.eng_backlog_date ∨
      (regressionCleanup status st).eng_backlog_date = none) := by
  unfold regressionCleanup
  repeat' split
  all_goals
    exact ⟨by first | exact Or.inl rfl | exact Or.inr rfl,
           by first | exact Or.inl rfl | exact Or.inr rfl,
           by first | exact Or.inl rfl | exact Or.inr rfl,
           by first | exact Or.inl rfl | exact Or.inr rfl⟩

/-- A present component of the cleaned-up scan is an event timestamp. -/
theorem cleanedComponent_mem (issue : TicketInput) (proj : ScanState → Option Int)
    (hitem : ∀ (cd : Int) (st : ScanState) (item : HistItem),
      proj (scanItem cd st item) = proj st ∨ proj (scanItem cd st item) = some cd)
    (hinit : proj ScanState.initial = none)
    (hcln : ∀ st : ScanState,
      proj (regressionCleanup issue.status st) = proj st ∨
      proj (regressionCleanup issue.status st) = none)
    (d : Int)
    (hd : proj (regressionCleanup issue.status (scanChangelog issue.changelog)) = some d) :
    ∃ h ∈ issue.changelog, d = h.created := by
  rcases hcln (scanChangelog issue.changelog) with hkeep | hnone
  · rw [hkeep] at hd
    unfold scanChangelog at hd
    rcases scan_proj_bound proj hitem issue.changelog ScanState.initial d hd with hcase | hmem
    · rw [hinit] at hcase
      exact absurd hcase (by simp)
    · exact hmem
  · rw [hnone] at hd
    exact absurd hd (by simp)

/-- A sweep whose per-row update preserves a projection only produces rows
whose projection was already in the table. -/
theorem sweep_proj_mem {α : Type} (g : Record → α) (u : List Record → Record → Record)
    (hu : ∀ (rs : List Record) (r : Record), g (u rs r) = g r) (rows : List Record) :
    ∀ r ∈ sweep u rows, ∃ r0 ∈ rows, g r = g r0 := by
  unfold sweep
  suffices hgen : ∀ (l : List Nat) (rs : List Record),
      (∀ r ∈ rs, ∃ r0 ∈ rows, g r = g r0) →
      ∀ r ∈ l.foldl
          (fun rs i => match rs[i]? with | some rr => rs.set i (u rs rr) | none => rs) rs,
        ∃ r0 ∈ rows, g r = g r0 by
    intro r hr
    exact hgen _ rows (fun r0 h0 => ⟨r0, h0, rfl⟩) r hr
  intro l
  induction l with
  | nil => intro rs hrs r hr; exact hrs r hr
  | cons i t ih =>
    intro rs hrs r hr
    rw [List.foldl_cons] at hr
    refine ih _ ?_ r hr
    intro r' hr'
    cases hgi : rs[i]? with
    | none =>
      rw [hgi] at hr'
      exact hrs r' hr'
    | some rr =>
      rw [hgi] at hr'
      rcases List.mem_or_eq_of_mem_set hr' with hm | he
      · exact hrs r' hm
      · subst he
        obtain ⟨r0, h0, he0⟩ := hrs rr (List.getElem?_mem hgi)
        exact ⟨r0, h0, (hu rs rr).trans he0⟩

/-- The per-row hierarchy updates never touch the phase-date columns. -/
theorem updOf_phaseDates (ps : PassSpec)
    (happ : ∀ r p, phaseDatesOf (ps.app r p) = phaseDatesOf r)
    (rs : List Record) (r : Record) : phaseDatesOf (updOf ps rs r) = phaseDatesOf r := by
  unfold updOf
  repeat' split
  all_goals first | rfl | exact happ _ _

theorem resolveHierarchy_phaseDates (rows : List Record) :
    ∀ r ∈ resolveHierarchy rows, ∃ r0 ∈ rows, phaseDatesOf r = phaseDatesOf r0 := by
  intro r hr
  unfold resolveHierarchy runPass at hr
  obtain ⟨r2, hr2, he2⟩ :=
    sweep_proj_mem phaseDatesOf (updOf pass3) (updOf_phaseDates pass3 (fun _ _ => rfl)) _ r hr
  obtain ⟨r1, hr1, he1⟩ :=
    sweep_proj_mem phaseDatesOf (updOf pass2) (updOf_phaseDates pass2 (fun _ _ => rfl)) _ r2 hr2
  obtain ⟨r0, hr0, he0⟩ :=
    sweep_proj_mem phaseDatesOf (updOf pass1) (updOf_phaseDates pass1 (fun _ _ => rfl)) _ r1 hr1
  exact ⟨r0, hr0, he2.trans (he1.trans he0)⟩

/-- Amended C3: pairwise monotonicity of the event-derived dates fails
(see the counterexample), but the PM-backlog entry — the creation date —
lower-bounds every other present phase date whenever no change event
predates creation, and hierarchy resolution never alters the phase-date
columns, so this holds of every row of the output table. -/
theorem C3_amended_pm_backlog_lower_bound :
    (∀ (issue : TicketInput) (r : Record), extractIssue issue = some r →
      (∀ h ∈ issue.changelog, issue.created ≤ h.created) →
      r.pmBacklogDate = some issue.created ∧
      ∀ d : Int,
        (r.engBacklogDate = some d ∨ r.devDate = some d ∨
         r.validationDate = some d ∨ r.doneDate = some d) →
        issue.created ≤ d) ∧
    (∀ (rows : List Record) (r : Record), r ∈ resolveHierarchy rows →
      ∃ r0 ∈ rows, phaseDatesOf r = phaseDatesOf r0) := by
  constructor
  · intro issue r hr hev
    obtain ⟨-, hpm, heng, hdev, hval, hdone, -⟩ := extractIssue_shape issue r hr
    refine ⟨hpm, ?_⟩
    intro d hd
    have hmem : ∃ h ∈ issue.changelog, d = h.created := by
      rcases hd with hc | hc | hc | hc
      · refine cleanedComponent_mem issue (fun st => st.eng_backlog_date)
          scanItem_eng_cases rfl ?_ d (show (regressionCleanup issue.status (scanChangelog issue.changelog)).eng_backlog_date = some d by
            rw [← heng]; exact hc)
        intro st
        exact (regressionCleanup_cases issue.status st).2.2.2
      · refine cleanedComponent_mem issue (fun st => st.dev_date)
          scanItem_dev_cases rfl ?_ d (show (regressionCleanup issue.status (scanChangelog issue.changelog)).dev_date = some d by
            rw [← hdev]; exact hc)
        intro st
        exact (regressionCleanup_cases issue.status st).2.2.1
      · refine cleanedComponent_mem issue (fun st => st.validation_date)
          scanItem_validation_cases rfl ?_ d (show (regressionCleanup issue.status (scanChangelog issue.changelog)).validation_date = some d by
            rw [← hval]; exact hc)
        intro st
        exact (regressionCleanup_cases issue.status st).2.1
      · refine cleanedComponent_mem issue (fun st => st.done_date)
          scanItem_done_cases rfl ?_ d (show (regressionCleanup issue.status (scanChangelog issue.changelog)).done_date = some d by
            rw [← hdone]; exact hc)
        intro st
        exact (regressionCleanup_cases issue.status st).1
    obtain ⟨h, hh, hdh⟩ := hmem
    rw [hdh]
    exact hev h hh
  · exact resolveHierarchy_phaseDates

/-- Witness for the amended C3: c3wIssue (created day 1, one Development
event at day 3) satisfies both hypotheses, and the theorem yields
1 ≤ 3 for its development entry. -/
theorem C3_amended_witness :
    c3wRec.pmBacklogDate = some c3wIssue.created ∧ c3wIssue.created ≤ 3 := by
  have h := C3_amended_pm_backlog_lower_bound.1 c3wIssue c3wRec (by decide)
    (by decide)
  exact ⟨h.1, h.2 3 (by decide)⟩

/-! ### Gap filling (C8) -/

theorem author_dates_length (authors : List String) (date_range : List Int) :
    (author_dates authors date_range).length = authors.length * date_range.length := by
  induction authors with
  | nil => simp [author_dates]
  | cons a t ih =>
    unfold author_dates at ih ⊢
    rw [List.flatMap_cons, List.length_append, List.length_map, ih, List.length_cons]
    ring

theorem dateRangeOf_length (start : Int) (len : Nat) :
    (dateRangeOf start len).length = len := by
  unfold dateRangeOf
  rw [List.length_map, List.length_range]

theorem mem_author_dates (authors : List String) (date_range : List Int)
    (a : String) (d : Int) (ha : a ∈ authors) (hd : d ∈ date_range) :
    (a, d) ∈ author_dates authors date_range := by
  unfold author_dates
  rw [List.mem_flatMap]
  exact ⟨a, ha, List.mem_map.mpr ⟨d, hd, rfl⟩⟩

theorem mergeLeft_length (df : List AggRow) (complete : List (String × Int))
    (hdup : ∀ a d, (df.filter (fun r => r.author == a && r.date == d)).length ≤ 1) :
    (mergeLeft complete df).length = complete.length := by
  induction complete with
  | nil => rfl
  | cons ad t ih =>
    unfold mergeLeft at ih ⊢
    rw [List.flatMap_cons, List.length_append, ih, List.length_cons]
    cases hfil : df.filter (fun r => r.author == ad.1 && r.date == ad.2) with
    | nil => simp [Nat.add_comm]
    | cons m ms =>
      have hd := hdup ad.1 ad.2
      rw [hfil] at hd
      cases ms with
      | nil => simp [Nat.add_comm]
      | cons m2 ms2 => exact absurd hd (by simp)

theorem mergeLeft_count_cases (df : List AggRow) (complete : List (String × Int)) :
    ∀ m ∈ mergeLeft complete df,
      m.count = none ∨ ∃ r0 ∈ df, m.count = some r0.count := by
  intro m hm
  unfold mergeLeft at hm
  rw [List.mem_flatMap] at hm
  obtain ⟨ad, -, hmem⟩ := hm
  revert hmem
  cases hfil : df.filter (fun r => r.author == ad.1 && r.date == ad.2) with
  | nil =>
    intro hmem
    rw [List.mem_singleton] at hmem
    subst hmem
    exact Or.inl rfl
  | cons r rs =>
    intro hmem
    rw [List.mem_map] at hmem
    obtain ⟨r0, hr0, heq⟩ := hmem
    refine Or.inr ⟨r0, ?_, ?_⟩
    · have : r0 ∈ df.filter (fun r => r.author == ad.1 && r.date == ad.2) := by
        rw [hfil]; exact hr0
      exact (List.mem_filter.mp this).1
    · rw [← heq]

/-- C8: over the full product of authors and a contiguous date range, gap
filling yields exactly |authors| × |dates| rows, every count present and
non-negative, and an explicit zero row for every (author, date) cell that
had no input row. -/
theorem C8_gap_filling (df : List AggRow) (authors : List String)
    (start : Int) (len : Nat)
    (hdup : ∀ a d, (df.filter (fun r => r.author == a && r.date == d)).length ≤ 1)
    (hpos : ∀ r ∈ df, 0 ≤ r.count) :
    (fill_missing_dates df (dateRangeOf start len) authors).length =
        authors.length * len ∧
    (∀ m ∈ fill_missing_dates df (dateRangeOf start len) authors,
      ∃ c, m.count = some c ∧ 0 ≤ c) ∧
    (∀ a ∈ authors, ∀ d ∈ dateRangeOf start len,
      df.filter (fun r => r.author == a && r.date == d) = [] →
      (⟨a, d, some 0⟩ : MergedRow) ∈ fill_missing_dates df (dateRangeOf start len) authors) := by
  refine ⟨?_, ?_, ?_⟩
  · unfold fill_missing_dates fillna0
    rw [List.length_map, mergeLeft_length df _ hdup, author_dates_length,
      dateRangeOf_length]
  · intro m hm
    unfold fill_missing_dates fillna0 at hm
    rw [List.mem_map] at hm
    obtain ⟨m0, hm0, heq⟩ := hm
    subst heq
    refine ⟨m0.count.getD 0, rfl, ?_⟩
    rcases mergeLeft_count_cases df _ m0 hm0 with hc | ⟨r0, hr0, hc⟩
    · rw [hc]
      exact le_rfl
    · rw [hc]
      exact hpos r0 hr0
  · intro a ha d hd hempty
    unfold fill_missing_dates fillna0
    rw [List.mem_map]
    refine ⟨⟨a, d, none⟩, ?_, rfl⟩
    unfold mergeLeft
    rw [List.mem_flatMap]
    refine ⟨(a, d), mem_author_dates authors _ a d ha hd, ?_⟩
    rw [hempty]
    exact List.mem_singleton.mpr rfl

/-- Witness for C8 (spec scenario 5): one author, range of 3 days starting
day 1, a single PR on day 2 — three rows and a zero cell on day 1. -/
theorem C8_witness :
    (fill_missing_dates c8df (dateRangeOf 1 3) ["alice"]).length = 1 * 3 ∧
    (⟨"alice", 1, some 0⟩ : MergedRow) ∈ fill_missing_dates c8df (dateRangeOf 1 3) ["alice"] := by
  have h := C8_gap_filling c8df ["alice"] 1 3
    (fun a d => List.length_filter_le _ _)
    (by decide)
  exact ⟨h.1, h.2.2 "alice" (by decide) 1 (by decide) (by decide)⟩

/-! ### Hierarchy idempotence (C7) -/

/-- C7 counterexample: on c7rows — acyclic, but its parent-initiative
target B itself carries a parent-initiative link — running the three
passes twice differs from running them once (A picks up B's freshly
copied theme only on the second run). -/
theorem C7_counterexample :
    resolveHierarchy (resolveHierarchy c7rows) ≠ resolveHierarchy c7rows := by
  decide

theorem updOf_some_eq (ps : PassSpec) (rows : List Record) (r : Record) (k : String)
    (htr : ps.trig r = some k) :
    updOf ps rows r =
      if k = "" then r
      else
        match findByKey rows k with
        | some p => ps.app r p
        | none => r := by
  unfold updOf
  rw [htr]

theorem updOf_found (ps : PassSpec) (rows : List Record) (r : Record)
    (k : String) (p : Record) (htr : ps.trig r = some k) (hk : k ≠ "")
    (hf : findByKey rows k = some p) : updOf ps rows r = ps.app r p := by
  rw [updOf_some_eq ps rows r k htr, if_neg hk, hf]

theorem updOf_notfound (ps : PassSpec) (rows : List Record) (r : Record)
    (k : String) (htr : ps.trig r = some k)
    (hf : findByKey rows k = none) : updOf ps rows r = r := by
  rw [updOf_some_eq ps rows r k htr]
  by_cases hk : k = ""
  · rw [if_pos hk]
  · rw [if_neg hk, hf]

theorem updOf_cases (ps : PassSpec) (rows : List Record) (r : Record) :
    updOf ps rows r = r ∨
    ∃ k p, ps.trig r = some k ∧ k ≠ "" ∧ findByKey rows k = some p ∧
      updOf ps rows r = ps.app r p := by
  cases htr : ps.trig r with
  | none =>
    refine Or.inl ?_
    unfold updOf
    rw [htr]
  | some k =>
    by_cases hk : k = ""
    · refine Or.inl ?_
      rw [updOf_some_eq ps rows r k htr, if_pos hk]
    · cases hf : findByKey rows k with
      | none => exact Or.inl (updOf_notfound ps rows r k htr hf)
      | some p => exact Or.inr ⟨k, p, rfl, hk, hf, updOf_found ps rows r k p htr hk hf⟩

theorem truthy_false_elim (o : Option String) (h : truthy o = false) :
    ∀ k, o = some k → k = "" := by
  intro k hk
  subst hk
  simpa [truthy] using h

theorem truthy_none_or_empty (o : Option String) (h : truthy o = false) :
    o = none ∨ o = some "" := by
  cases o with
  | none => exact Or.inl rfl
  | some s => exact Or.inr (by rw [truthy_false_elim (some s) h s rfl])

theorem updOf_id_of_not_truthy (ps : PassSpec) (rows : List Record) (r : Record)
    (h : truthy (ps.trig r) = false) : updOf ps rows r = r := by
  rcases updOf_cases ps rows r with he | ⟨k, p, htr, hk, -, -⟩
  · exact he
  · exact absurd (truthy_false_elim _ h k htr) hk

theorem updOf_field {α : Type} (ps : PassSpec) (rows : List Record) (r : Record)
    (g : Record → α) (happ : ∀ r p, g (ps.app r p) = g r) :
    g (updOf ps rows r) = g r := by
  rcases updOf_cases ps rows r with he | ⟨k, p, -, -, -, he⟩
  · rw [he]
  · rw [he]
    exact happ r p

theorem app1_app1 (r p : Record) : app1 (app1 r p) p = app1 r p := rfl

theorem app2_app2 (r p : Record) : app2 (app2 r p) p = app2 r p := rfl

theorem app3_app3 (r p : Record) : app3 (app3 r p) p = app3 r p := rfl

theorem app1_self (r p : Record) (h1 : r.parentInitiativeName = some p.summary)
    (h2 : r.parentTheme = p.parentTheme) : app1 r p = r := by
  unfold app1
  rw [← h1, ← h2]

theorem app2_self (r p : Record) (h1 : r.parentEpicName = some p.summary)
    (h2 : r.parentInitiative = p.parentInitiative)
    (h3 : r.parentInitiativeName = p.parentInitiativeName)
    (h4 : r.parentTheme = p.parentTheme) : app2 r p = r := by
  unfold app2
  rw [← h1, ← h2, ← h3, ← h4]

theorem app3_self (r p : Record) (h1 : r.parentStoryName = some p.summary)
    (h2 : r.parentEpic = p.parentEpic) (h3 : r.parentEpicName = p.parentEpicName)
    (h4 : r.parentInitiative = p.parentInitiative)
    (h5 : r.parentInitiativeName = p.parentInitiativeName)
    (h6 : r.parentTheme = p.parentTheme) : app3 r p = r := by
  unfold app3
  rw [← h1, ← h2, ← h3, ← h4, ← h5, ← h6]

theorem findByKey_mem (rows : List Record) (k : String) (p : Record)
    (h : findByKey rows k = some p) : p ∈ rows :=
  List.mem_of_find?_eq_some h

theorem findByKey_map (f : Record → Record) (hf : ∀ r, (f r).issueKey = r.issueKey)
    (rows : List Record) (k : String) :
    findByKey (rows.map f) k = (findByKey rows k).map f := by
  induction rows with
  | nil => rfl
  | cons a t ih =>
    unfold findByKey at ih ⊢
    rw [List.map_cons]
    by_cases hk : (a.issueKey == k) = true
    · have h1 : List.find? (fun r => r.issueKey == k) (f a :: List.map f t) = some (f a) :=
        List.find?_cons_of_pos _ (by rw [hf a]; exact hk)
      have h2 : List.find? (fun r => r.issueKey == k) (a :: t) = some a :=
        List.find?_cons_of_pos _ hk
      rw [h1, h2, Option.map_some']
    · have h1 : List.find? (fun r => r.issueKey == k) (f a :: List.map f t) =
          List.find? (fun r => r.issueKey == k) (List.map f t) :=
        List.find?_cons_of_neg _ (by rw [hf a]; exact hk)
      have h2 : List.find? (fun r => r.issueKey == k) (a :: t) =
          List.find? (fun r => r.issueKey == k) t :=
        List.find?_cons_of_neg _ hk
      rw [h1, h2]
      exact ih

theorem forall₂_map_self {R : Record → Record → Prop} (f : Record → Record)
    (l : List Record) (h : ∀ b ∈ l, R (f b) b) : List.Forall₂ R (l.map f) l := by
  induction l with
  | nil => exact List.Forall₂.nil
  | cons a t ih =>
    rw [List.map_cons]
    exact List.Forall₂.cons (h a (List.mem_cons_self a t))
      (ih (fun b hb => h b (List.mem_cons_of_mem a hb)))

theorem forall₂_append_pair {R : Record → Record → Prop} :
    ∀ {l1 l2 l3 l4 : List Record}, List.Forall₂ R l1 l2 → List.Forall₂ R l3 l4 →
      List.Forall₂ R (l1 ++ l3) (l2 ++ l4) := by
  intro l1 l2 l3 l4 h12 h34
  induction h12 with
  | nil => exact h34
  | cons hab _ ih => exact List.Forall₂.cons hab ih

/-- `find?` by key sees no difference between a partially updated table
and the original, as long as the update preserves keys and leaves the
first matching row unchanged. -/
theorem findByKey_congr (f : Record → Record) (k : String)
    (hf : ∀ r, (f r).issueKey = r.issueKey) :
    ∀ (rs rows : List Record),
      List.Forall₂ (fun a b => a = b ∨ a = f b) rs rows →
      (∀ p, findByKey rows k = some p → f p = p) →
      findByKey rs k = findByKey rows k := by
  intro rs rows h
  induction h with
  | nil => intro _; rfl
  | @cons a b l1 l2 hab htail ih =>
    intro hfix
    by_cases hbk : (b.issueKey == k) = true
    · have hfindb : findByKey (b :: l2) k = some b := by
        unfold findByKey
        exact List.find?_cons_of_pos _ hbk
      have hfb : f b = b := hfix b hfindb
      have hae : a = b := by
        rcases hab with he | he
        · exact he
        · rw [he, hfb]
      unfold findByKey
      have h1 : List.find? (fun r => r.issueKey == k) (a :: l1) = some a :=
        List.find?_cons_of_pos _ (by rw [hae]; exact hbk)
      have h2 : List.find? (fun r => r.issueKey == k) (b :: l2) = some b :=
        List.find?_cons_of_pos _ hbk
      rw [h1, h2, hae]
    · have hak : ¬(a.issueKey == k) = true := by
        intro hkk
        apply hbk
        rcases hab with he | he
        · rw [← he]
          exact hkk
        · rw [← hf b, ← he]
          exact hkk
      have h1 : findByKey (a :: l1) k = findByKey l1 k :=
        List.find?_cons_of_neg _ hak
      have h2 : findByKey (b :: l2) k = findByKey l2 k :=
        List.find?_cons_of_neg _ hbk
      rw [h1, h2]
      apply ih
      intro p hp
      apply hfix
      rw [h2]
      exact hp

/-- When every lookup target of a sweep is a row the per-row update fixes,
the in-place sweep coincides with a plain map against the original table. -/
theorem sweep_eq_map (u : List Record → Record → Record) (rows : List Record)
    (hstep : ∀ (n i : Nat) (r : Record), n ≤ rows.length → rows[i]? = some r →
      u (mapUpTo u rows n) r = u rows r) :
    sweep u rows = rows.map (u rows) := by
  unfold sweep
  suffices hgen : ∀ n, n ≤ rows.length →
      (List.range n).foldl
        (fun rs i => match rs[i]? with | some r => rs.set i (u rs r) | none => rs) rows =
      mapUpTo u rows n by
    have h := hgen rows.length le_rfl
    rw [h]
    unfold mapUpTo
    rw [List.take_length, List.drop_length, List.append_nil]
  intro n
  induction n with
  | zero =>
    intro _
    unfold mapUpTo
    rw [List.take_zero, List.drop_zero, List.map_nil, List.nil_append, List.range_zero,
      List.foldl_nil]
  | succ n ih =>
    intro hn1
    have hlt : n < rows.length := hn1
    have hn : n ≤ rows.length := Nat.le_of_succ_le hn1
    rw [List.range_succ, List.foldl_append, ih hn, List.foldl_cons, List.foldl_nil]
    obtain ⟨r, hr⟩ : ∃ r, rows[n]? = some r := ⟨_, List.getElem?_eq_getElem hlt⟩
    have hlen : ((rows.take n).map (u rows)).length = n := by
      rw [List.length_map, List.length_take]
      exact min_eq_left hn
    have hget : (mapUpTo u rows n)[n]? = some r := by
      unfold mapUpTo
      rw [List.getElem?_append_right (le_of_eq hlen), hlen, Nat.sub_self,
        List.getElem?_drop, Nat.add_zero]
      exact hr
    rw [hget]
    show (mapUpTo u rows n).set n (u (mapUpTo u rows n) r) = mapUpTo u rows (n + 1)
    rw [hstep n n r hn hr]
    unfold mapUpTo
    rw [List.set_append, if_neg (by rw [hlen]; exact lt_irrefl n), hlen, Nat.sub_self,
      List.drop_eq_getElem_cons hlt, List.set_cons_zero, List.take_succ, hr,
      Option.toList_some, List.map_append]
    rw [List.append_assoc]
    rfl

theorem updOf_key (ps : PassSpec) (hkey : ∀ r p, (ps.app r p).issueKey = r.issueKey)
    (rows : List Record) (r : Record) : (updOf ps rows r).issueKey = r.issueKey :=
  updOf_field ps rows r Record.issueKey hkey

/-- Purity of one pass: if every row a parent link of the table resolves
to is left unchanged by the pass, the sweep equals a map over the
original table. -/
theorem runPass_eq_map (ps : PassSpec) (rows : List Record)
    (hkey : ∀ r p, (ps.app r p).issueKey = r.issueKey)
    (htargets : ∀ r ∈ rows, ∀ k, ps.trig r = some k → k ≠ "" →
      ∀ p, findByKey rows k = some p → updOf ps rows p = p) :
    runPass ps rows = rows.map (updOf ps rows) := by
  unfold runPass
  apply sweep_eq_map
  intro n i r hn hr
  have hrmem : r ∈ rows := List.getElem?_mem hr
  cases htr : ps.trig r with
  | none =>
    have h1 : updOf ps (mapUpTo (updOf ps) rows n) r = r := by
      unfold updOf
      rw [htr]
    have h2 : updOf ps rows r = r := by
      unfold updOf
      rw [htr]
    rw [h1, h2]
  | some k =>
    by_cases hk : k = ""
    · rw [updOf_some_eq ps _ r k htr, updOf_some_eq ps rows r k htr, if_pos hk,
        if_pos hk]
    · have hfind : findByKey (mapUpTo (updOf ps) rows n) k = findByKey rows k := by
        apply findByKey_congr (updOf ps rows) k (updOf_key ps hkey rows)
        · have hrel : List.Forall₂ (fun a b => a = b ∨ a = updOf ps rows b)
              (mapUpTo (updOf ps) rows n) (rows.take n ++ rows.drop n) := by
            unfold mapUpTo
            exact forall₂_append_pair
              (forall₂_map_self _ _ (fun b _ => Or.inr rfl))
              (List.forall₂_same.mpr (fun a _ => Or.inl rfl))
          rw [List.take_append_drop] at hrel
          exact hrel
        · intro p hp
          exact htargets r hrmem k htr hk p hp
      rw [updOf_some_eq ps _ r k htr, updOf_some_eq ps rows r k htr, if_neg hk, hfind,
        if_neg hk]

theorem linkTargetOk_elim (rows : List Record) (link : Option String)
    (good : Record → Bool) (h : linkTargetOk rows link good = true)
    (k : String) (hl : link = some k) (hk : k ≠ "") (p : Record)
    (hf : findByKey rows k = some p) : good p = true := by
  subst hl
  unfold linkTargetOk at h
  have h2 : (if k = "" then true
      else
        match findByKey rows k with
        | none => true
        | some p => good p) = true := h
  rw [if_neg hk, hf] at h2
  exact h2

theorem isL0_elim (r : Record) (h : isL0 r = true) :
    truthy r.parentInitiative = false ∧ truthy r.parentEpic = false ∧
    truthy r.parentStory = false := by
  unfold isL0 at h
  simp only [Bool.and_eq_true, Bool.not_eq_true'] at h
  exact ⟨h.1.1, h.1.2, h.2⟩

theorem isL1_elim (r : Record) (h : isL1 r = true) :
    truthy r.parentEpic = false ∧ truthy r.parentStory = false := by
  unfold isL1 at h
  simp only [Bool.and_eq_true, Bool.not_eq_true'] at h
  exact h

theorem isL2_elim (r : Record) (h : isL2 r = true) :
    truthy r.parentStory = false := by
  unfold isL2 at h
  simp only [Bool.not_eq_true'] at h
  exact h

theorem amo_story (r : Record) (h : atMostOneLink r = true)
    (hs : truthy r.parentStory = true) :
    truthy r.parentEpic = false ∧ truthy r.parentInitiative = false := by
  unfold atMostOneLink at h
  rw [hs] at h
  cases he : truthy r.parentEpic <;> cases hi : truthy r.parentInitiative <;>
      rw [he, hi] at h <;> simp_all

theorem amo_epic (r : Record) (h : atMostOneLink r = true)
    (he : truthy r.parentEpic = true) :
    truthy r.parentStory = false ∧ truthy r.parentInitiative = false := by
  unfold atMostOneLink at h
  rw [he] at h
  cases hs : truthy r.parentStory <;> cases hi : truthy r.parentInitiative <;>
      rw [hs, hi] at h <;> simp_all

theorem amo_init (r : Record) (h : atMostOneLink r = true)
    (hi : truthy r.parentInitiative = true) :
    truthy r.parentStory = false ∧ truthy r.parentEpic = false := by
  unfold atMostOneLink at h
  rw [hi] at h
  cases hs : truthy r.parentStory <;> cases he : truthy r.parentEpic <;>
      rw [hs, he] at h <;> simp_all

theorem updF1_key (rows : List Record) (r : Record) :
    (updF1 rows r).issueKey = r.issueKey :=
  updOf_key pass1 (fun _ _ => rfl) rows r

theorem updF2_key (rows : List Record) (r : Record) :
    (updF2 rows r).issueKey = r.issueKey :=
  updOf_key pass2 (fun _ _ => rfl) (table1 rows) r

theorem updF3_key (rows : List Record) (r : Record) :
    (updF3 rows r).issueKey = r.issueKey :=
  updOf_key pass3 (fun _ _ => rfl) (table2 rows) r

theorem resolveFun_key (rows : List Record) (r : Record) :
    (resolveFun rows r).issueKey = r.issueKey := by
  unfold resolveFun
  rw [updF3_key, updF2_key, updF1_key]

theorem updF1_parentStory (rows : List Record) (r : Record) :
    (updF1 rows r).parentStory = r.parentStory :=
  updOf_field pass1 rows r Record.parentStory (fun _ _ => rfl)

theorem updF1_parentEpic (rows : List Record) (r : Record) :
    (updF1 rows r).parentEpic = r.parentEpic :=
  updOf_field pass1 rows r Record.parentEpic (fun _ _ => rfl)

theorem updF1_parentInitiative (rows : List Record) (r : Record) :
    (updF1 rows r).parentInitiative = r.parentInitiative :=
  updOf_field pass1 rows r Record.parentInitiative (fun _ _ => rfl)

theorem updF1_summary (rows : List Record) (r : Record) :
    (updF1 rows r).summary = r.summary :=
  updOf_field pass1 rows r Record.summary (fun _ _ => rfl)

theorem updF2_parentStory (rows : List Record) (r : Record) :
    (updF2 rows r).parentStory = r.parentStory :=
  updOf_field pass2 (table1 rows) r Record.parentStory (fun _ _ => rfl)

theorem updF2_parentEpic (rows : List Record) (r : Record) :
    (updF2 rows r).parentEpic = r.parentEpic :=
  updOf_field pass2 (table1 rows) r Record.parentEpic (fun _ _ => rfl)

theorem updF2_summary (rows : List Record) (r : Record) :
    (updF2 rows r).summary = r.summary :=
  updOf_field pass2 (table1 rows) r Record.summary (fun _ _ => rfl)

theorem updF3_parentStory (rows : List Record) (r : Record) :
    (updF3 rows r).parentStory = r.parentStory :=
  updOf_field pass3 (table2 rows) r Record.parentStory (fun _ _ => rfl)

theorem updF3_summary (rows : List Record) (r : Record) :
    (updF3 rows r).summary = r.summary :=
  updOf_field pass3 (table2 rows) r Record.summary (fun _ _ => rfl)

/-- Under well-formedness, pass 1 is the pure map `table1`. -/
theorem runPass1_eq (rows : List Record) (hwf : WF rows) :
    runPass pass1 rows = table1 rows := by
  unfold table1 updF1
  apply runPass_eq_map pass1 rows (fun _ _ => rfl)
  intro r hr k htr hk p hp
  have hg := linkTargetOk_elim rows r.parentInitiative isL0 (hwf r hr).2.1 k htr hk p hp
  exact updOf_id_of_not_truthy pass1 rows p (isL0_elim p hg).1

/-- Under well-formedness, pass 2 over `table1` is the pure map `table2`. -/
theorem runPass2_eq (rows : List Record) (hwf : WF rows) :
    runPass pass2 (table1 rows) = table2 rows := by
  unfold table2
  apply runPass_eq_map pass2 (table1 rows) (fun _ _ => rfl)
  intro r' hr' k htr hk p hp
  obtain ⟨x, hx, hbx⟩ := List.mem_map.mp hr'
  have htrx : x.parentEpic = some k := by
    rw [← updF1_parentEpic rows x, hbx]
    exact htr
  have hfind : findByKey (table1 rows) k = (findByKey rows k).map (updF1 rows) := by
    unfold table1
    exact findByKey_map (updF1 rows) (updF1_key rows) rows k
  rw [hfind] at hp
  cases hfr : findByKey rows k with
  | none => rw [hfr] at hp; exact absurd hp (by simp)
  | some pe =>
    rw [hfr, Option.map_some'] at hp
    have hpe : p = updF1 rows pe := (Option.some.inj hp).symm
    have hg := linkTargetOk_elim rows x.parentEpic isL1 (hwf x hx).2.2.1 k htrx hk pe hfr
    have htrig : truthy (pass2.trig p) = false := by
      show truthy p.parentEpic = false
      rw [hpe, updF1_parentEpic]
      exact (isL1_elim pe hg).1
    exact updOf_id_of_not_truthy pass2 (table1 rows) p htrig

/-- Under well-formedness, pass 3 over `table2` is a pure map as well. -/
theorem runPass3_eq (rows : List Record) (hwf : WF rows) :
    runPass pass3 (table2 rows) = (table2 rows).map (updF3 rows) := by
  unfold updF3
  apply runPass_eq_map pass3 (table2 rows) (fun _ _ => rfl)
  intro r'' hr'' k htr hk p hp
  obtain ⟨r', hr', hbr'⟩ := List.mem_map.mp hr''
  obtain ⟨x, hx, hbx⟩ := List.mem_map.mp hr'
  have htrx : x.parentStory = some k := by
    rw [← updF1_parentStory rows x, hbx, ← updF2_parentStory rows r', hbr']
    exact htr
  have hfind : findByKey (table2 rows) k =
      ((findByKey rows k).map (updF1 rows)).map (updF2 rows) := by
    unfold table2
    rw [findByKey_map (updF2 rows) (updF2_key rows) (table1 rows) k]
    unfold table1
    rw [findByKey_map (updF1 rows) (updF1_key rows) rows k]
  rw [hfind] at hp
  cases hfr : findByKey rows k with
  | none => rw [hfr] at hp; exact absurd hp (by simp)
  | some s =>
    rw [hfr, Option.map_some', Option.map_some'] at hp
    have hps : p = updF2 rows (updF1 rows s) := (Option.some.inj hp).symm
    have hg := linkTargetOk_elim rows x.parentStory isL2 (hwf x hx).2.2.2 k htrx hk s hfr
    have htrig : truthy (pass3.trig p) = false := by
      show truthy p.parentStory = false
      rw [hps, updF2_parentStory, updF1_parentStory]
      exact isL2_elim s hg
    exact updOf_id_of_not_truthy pass3 (table2 rows) p htrig

/-- Under well-formedness the whole three-pass resolution is the pure
per-row function `resolveFun`. -/
theorem resolveHierarchy_eq_resolveMap (rows : List Record) (hwf : WF rows) :
    resolveHierarchy rows = resolveMap rows := by
  unfold resolveHierarchy
  rw [runPass1_eq rows hwf, runPass2_eq rows hwf, runPass3_eq rows hwf]
  unfold table2 table1 resolveMap
  rw [List.map_map, List.map_map]
  rfl

theorem bool_not_true (b : Bool) (h : ¬b = true) : b = false := by
  cases b
  · rfl
  · exact absurd rfl h

theorem truthy_true_elim (o : Option String) (h : truthy o = true) :
    ∃ k, o = some k ∧ k ≠ "" := by
  cases o with
  | none => simp [truthy] at h
  | some s =>
    refine ⟨s, rfl, ?_⟩
    simpa [truthy] using h

theorem updF1_id (rows : List Record) (x : Record)
    (h : truthy x.parentInitiative = false) : updF1 rows x = x :=
  updOf_id_of_not_truthy pass1 rows x h

theorem updF2_id (rows : List Record) (x : Record)
    (h : truthy x.parentEpic = false) : updF2 rows x = x :=
  updOf_id_of_not_truthy pass2 (table1 rows) x h

theorem updF3_id (rows : List Record) (x : Record)
    (h : truthy x.parentStory = false) : updF3 rows x = x :=
  updOf_id_of_not_truthy pass3 (table2 rows) x h

theorem updF1_found (rows : List Record) (x : Record) (k : String) (p : Record)
    (htr : x.parentInitiative = some k) (hk : k ≠ "")
    (hf : findByKey rows k = some p) : updF1 rows x = app1 x p :=
  updOf_found pass1 rows x k p htr hk hf

theorem updF1_notfound (rows : List Record) (x : Record) (k : String)
    (htr : x.parentInitiative = some k) (hf : findByKey rows k = none) :
    updF1 rows x = x :=
  updOf_notfound pass1 rows x k htr hf

theorem findByKey_table1 (rows : List Record) (k : String) :
    findByKey (table1 rows) k = (findByKey rows k).map (updF1 rows) :=
  findByKey_map (updF1 rows) (updF1_key rows) rows k

theorem findByKey_table2 (rows : List Record) (k : String) :
    findByKey (table2 rows) k =
      (findByKey rows k).map (fun r => updF2 rows (updF1 rows r)) := by
  rw [show table2 rows = (table1 rows).map (updF2 rows) from rfl,
    findByKey_map (updF2 rows) (updF2_key rows) (table1 rows) k, findByKey_table1]
  cases findByKey rows k <;> rfl

theorem findByKey_resolveMap (rows : List Record) (k : String) :
    findByKey (resolveMap rows) k = (findByKey rows k).map (resolveFun rows) :=
  findByKey_map (resolveFun rows) (resolveFun_key rows) rows k

theorem updF2_found (rows : List Record) (x : Record) (k : String) (pe : Record)
    (htr : x.parentEpic = some k) (hk : k ≠ "")
    (hf : findByKey rows k = some pe) : updF2 rows x = app2 x (updF1 rows pe) := by
  apply updOf_found pass2 (table1 rows) x k _ htr hk
  rw [findByKey_table1, hf, Option.map_some']

theorem updF2_notfound (rows : List Record) (x : Record) (k : String)
    (htr : x.parentEpic = some k) (hf : findByKey rows k = none) :
    updF2 rows x = x := by
  apply updOf_notfound pass2 (table1 rows) x k htr
  rw [findByKey_table1, hf]
  rfl

theorem updF3_found (rows : List Record) (x : Record) (k : String) (s : Record)
    (htr : x.parentStory = some k) (hk : k ≠ "")
    (hf : findByKey rows k = some s) :
    updF3 rows x = app3 x (updF2 rows (updF1 rows s)) := by
  apply updOf_found pass3 (table2 rows) x k _ htr hk
  rw [findByKey_table2, hf, Option.map_some']

theorem updF3_notfound (rows : List Record) (x : Record) (k : String)
    (htr : x.parentStory = some k) (hf : findByKey rows k = none) :
    updF3 rows x = x := by
  apply updOf_notfound pass3 (table2 rows) x k htr
  rw [findByKey_table2, hf]
  rfl

theorem resolveFun_eq_updF1 (rows : List Record) (x : Record)
    (hE : truthy x.parentEpic = false) (hS : truthy x.parentStory = false) :
    resolveFun rows x = updF1 rows x := by
  unfold resolveFun
  have h2 : updF2 rows (updF1 rows x) = updF1 rows x := by
    apply updOf_id_of_not_truthy
    show truthy (updF1 rows x).parentEpic = false
    rw [updF1_parentEpic]
    exact hE
  rw [h2]
  apply updOf_id_of_not_truthy
  show truthy (updF1 rows x).parentStory = false
  rw [updF1_parentStory]
  exact hS

theorem resolveFun_eq_self_of_L0 (rows : List Record) (x : Record)
    (h : isL0 x = true) : resolveFun rows x = x := by
  obtain ⟨hi, he, hs⟩ := isL0_elim x h
  rw [resolveFun_eq_updF1 rows x he hs]
  exact updF1_id rows x hi

theorem resolveFun_eq_updF2 (rows : List Record) (x : Record)
    (hS : truthy x.parentStory = false) (hI : truthy x.parentInitiative = false) :
    resolveFun rows x = updF2 rows x := by
  unfold resolveFun
  rw [show updF1 rows x = x from updF1_id rows x hI]
  apply updOf_id_of_not_truthy
  show truthy (updF2 rows x).parentStory = false
  rw [updF2_parentStory]
  exact hS

theorem resolveFun_eq_f2f1_of_L2 (rows : List Record) (x : Record)
    (h : isL2 x = true) : resolveFun rows x = updF2 rows (updF1 rows x) := by
  unfold resolveFun
  apply updOf_id_of_not_truthy
  show truthy (updF2 rows (updF1 rows x)).parentStory = false
  rw [updF2_parentStory, updF1_parentStory]
  exact isL2_elim x h

theorem resolveFun_eq_updF3 (rows : List Record) (x : Record)
    (hE : truthy x.parentEpic = false) (hI : truthy x.parentInitiative = false) :
    resolveFun rows x = updF3 rows x := by
  unfold resolveFun
  rw [show updF1 rows x = x from updF1_id rows x hI]
  have h2 : updF2 rows x = x := by
    apply updOf_id_of_not_truthy
    exact hE
  rw [h2]

/-- A row is a fixpoint of the initiative pass over the resolved table as
soon as its initiative fields already agree with every resolvable target. -/
theorem fix_pass1_of (rows : List Record) (y : Record)
    (h : ∀ k, y.parentInitiative = some k → k ≠ "" →
      ∀ p0, findByKey rows k = some p0 →
        isL0 p0 = true ∧ y.parentInitiativeName = some p0.summary ∧
        y.parentTheme = p0.parentTheme) :
    updOf pass1 (resolveMap rows) y = y := by
  cases htr : y.parentInitiative with
  | none =>
    apply updOf_id_of_not_truthy
    show truthy y.parentInitiative = false
    rw [htr]
    rfl
  | some k =>
    by_cases hk : k = ""
    · apply updOf_id_of_not_truthy
      show truthy y.parentInitiative = false
      rw [htr, hk]
      rfl
    · cases hfr : findByKey rows k with
      | none =>
        apply updOf_notfound pass1 _ y k htr
        rw [findByKey_resolveMap, hfr]
        rfl
      | some p0 =>
        obtain ⟨hL0, hn, ht⟩ := h k htr hk p0 hfr
        have hfT : findByKey (resolveMap rows) k = some p0 := by
          rw [findByKey_resolveMap, hfr, Option.map_some',
            resolveFun_eq_self_of_L0 rows p0 hL0]
        rw [updOf_found pass1 _ y k p0 htr hk hfT]
        exact app1_self y p0 hn ht

/-- Same for the epic pass: the epic-level fields must agree with the
initiative-resolved target. -/
theorem fix_pass2_of (rows : List Record) (y : Record)
    (h : ∀ k, y.parentEpic = some k → k ≠ "" →
      ∀ pe, findByKey rows k = some pe →
        isL1 pe = true ∧ y.parentEpicName = some pe.summary ∧
        y.parentInitiative = (updF1 rows pe).parentInitiative ∧
        y.parentInitiativeName = (updF1 rows pe).parentInitiativeName ∧
        y.parentTheme = (updF1 rows pe).parentTheme) :
    updOf pass2 (resolveMap rows) y = y := by
  cases htr : y.parentEpic with
  | none =>
    apply updOf_id_of_not_truthy
    show truthy y.parentEpic = false
    rw [htr]
    rfl
  | some k =>
    by_cases hk : k = ""
    · apply updOf_id_of_not_truthy
      show truthy y.parentEpic = false
      rw [htr, hk]
      rfl
    · cases hfr : findByKey rows k with
      | none =>
        apply updOf_notfound pass2 _ y k htr
        rw [findByKey_resolveMap, hfr]
        rfl
      | some pe =>
        obtain ⟨hL1, h1, h2, h3, h4⟩ := h k htr hk pe hfr
        obtain ⟨hE, hS⟩ := isL1_elim pe hL1
        have hfT : findByKey (resolveMap rows) k = some (updF1 rows pe) := by
          rw [findByKey_resolveMap, hfr, Option.map_some',
            resolveFun_eq_updF1 rows pe hE hS]
        rw [updOf_found pass2 _ y k _ htr hk hfT]
        refine app2_self y (updF1 rows pe) ?_ h2 h3 h4
        rw [updF1_summary]
        exact h1

/-- Same for the story pass: the copied fields must agree with the
epic-resolved target. -/
theorem fix_pass3_of (rows : List Record) (y : Record)
    (h : ∀ k, y.parentStory = some k → k ≠ "" →
      ∀ s, findByKey rows k = some s →
        isL2 s = true ∧ y.parentStoryName = some s.summary ∧
        y.parentEpic = (updF2 rows (updF1 rows s)).parentEpic ∧
        y.parentEpicName = (updF2 rows (updF1 rows s)).parentEpicName ∧
        y.parentInitiative = (updF2 rows (updF1 rows s)).parentInitiative ∧
        y.parentInitiativeName = (updF2 rows (updF1 rows s)).parentInitiativeName ∧
        y.parentTheme = (updF2 rows (updF1 rows s)).parentTheme) :
    updOf pass3 (resolveMap rows) y = y := by
  cases htr : y.parentStory with
  | none =>
    apply updOf_id_of_not_truthy
    show truthy y.parentStory = false
    rw [htr]
    rfl
  | some k =>
    by_cases hk : k = ""
    · apply updOf_id_of_not_truthy
      show truthy y.parentStory = false
      rw [htr, hk]
      rfl
    · cases hfr : findByKey rows k with
      | none =>
        apply updOf_notfound pass3 _ y k htr
        rw [findByKey_resolveMap, hfr]
        rfl
      | some s =>
        obtain ⟨hL2, h1, h2, h3, h4, h5, h6⟩ := h k htr hk s hfr
        have hfT : findByKey (resolveMap rows) k =
            some (updF2 rows (updF1 rows s)) := by
          rw [findByKey_resolveMap, hfr, Option.map_some',
            resolveFun_eq_f2f1_of_L2 rows s hL2]
        rw [updOf_found pass3 _ y k _ htr hk hfT]
        refine app3_self y (updF2 rows (updF1 rows s)) ?_ h2 h3 h4 h5 h6
        rw [updF2_summary, updF1_summary]
        exact h1

/-- Rows whose initiative fields were copied from the pass-1 resolution of
a table member are fixpoints of pass 1 over the resolved table. -/
theorem fix1_from_member (rows : List Record) (hwf : WF rows) (pe : Record)
    (hpemem : pe ∈ rows) (y : Record)
    (h1 : y.parentInitiative = pe.parentInitiative)
    (h2 : y.parentInitiativeName = (updF1 rows pe).parentInitiativeName)
    (h3 : y.parentTheme = (updF1 rows pe).parentTheme) :
    updOf pass1 (resolveMap rows) y = y := by
  apply fix_pass1_of
  intro k hk hkne p0 hf0
  have hpek : pe.parentInitiative = some k := by
    rw [← h1]
    exact hk
  have hL0 : isL0 p0 = true :=
    linkTargetOk_elim rows pe.parentInitiative isL0 (hwf pe hpemem).2.1 k hpek hkne p0 hf0
  have hres : updF1 rows pe = app1 pe p0 := updF1_found rows pe k p0 hpek hkne hf0
  refine ⟨hL0, ?_, ?_⟩
  · rw [h2, hres]
    rfl
  · rw [h3, hres]
    rfl

/-- On a well-formed table, every fully resolved row is a fixpoint of all
three passes taken against the resolved table. -/
theorem resolveFun_fixpoints (rows : List Record) (hwf : WF rows) :
    ∀ x ∈ rows,
      updOf pass1 (resolveMap rows) (resolveFun rows x) = resolveFun rows x ∧
      updOf pass2 (resolveMap rows) (resolveFun rows x) = resolveFun rows x ∧
      updOf pass3 (resolveMap rows) (resolveFun rows x) = resolveFun rows x := by
  intro x hx
  obtain ⟨hamo, hok1, hok2, hok3⟩ := hwf x hx
  by_cases hS : truthy x.parentStory = true
  · obtain ⟨hE, hI⟩ := amo_story x hamo hS
    obtain ⟨ks, hks, hksne⟩ := truthy_true_elim x.parentStory hS
    have hy : resolveFun rows x = updF3 rows x := resolveFun_eq_updF3 rows x hE hI
    cases hfr : findByKey rows ks with
    | none =>
      have hy2 : updF3 rows x = x := updF3_notfound rows x ks hks hfr
      rw [hy, hy2]
      refine ⟨updOf_id_of_not_truthy pass1 _ x hI,
        updOf_id_of_not_truthy pass2 _ x hE, ?_⟩
      apply updOf_notfound pass3 _ x ks hks
      rw [findByKey_resolveMap, hfr]
      rfl
    | some s =>
      have hL2 : isL2 s = true :=
        linkTargetOk_elim rows x.parentStory isL2 hok3 ks hks hksne s hfr
      have hsmem : s ∈ rows := findByKey_mem rows ks s hfr
      obtain ⟨hamos, hok1s, hok2s, -⟩ := hwf s hsmem
      have hy2 : updF3 rows x = app3 x (updF2 rows (updF1 rows s)) :=
        updF3_found rows x ks s hks hksne hfr
      rw [hy, hy2]
      have hfix3 : updOf pass3 (resolveMap rows) (app3 x (updF2 rows (updF1 rows s)))
          = app3 x (updF2 rows (updF1 rows s)) := by
        apply fix_pass3_of
        intro k hk hkne s' hfs'
        have h0 : x.parentStory = some k := hk
        rw [hks] at h0
        obtain rfl : ks = k := Option.some.inj h0
        rw [hfr] at hfs'
        obtain rfl : s = s' := Option.some.inj hfs'
        refine ⟨hL2, ?_, rfl, rfl, rfl, rfl, rfl⟩
        show some (updF2 rows (updF1 rows s)).summary = some s.summary
        rw [updF2_summary, updF1_summary]
      by_cases hsE : truthy s.parentEpic = true
      · obtain ⟨-, hsI⟩ := amo_epic s hamos hsE
        obtain ⟨ke, hke, hkene⟩ := truthy_true_elim s.parentEpic hsE
        cases hfe : findByKey rows ke with
        | none =>
          have hs2 : updF2 rows (updF1 rows s) = updF1 rows s := by
            apply updF2_notfound rows _ ke ?_ hfe
            rw [updF1_parentEpic]
            exact hke
          refine ⟨?_, ?_, hfix3⟩
          · apply fix1_from_member rows hwf s hsmem
            · show (updF2 rows (updF1 rows s)).parentInitiative = s.parentInitiative
              rw [hs2, updF1_parentInitiative]
            · show (updF2 rows (updF1 rows s)).parentInitiativeName =
                (updF1 rows s).parentInitiativeName
              rw [hs2]
            · show (updF2 rows (updF1 rows s)).parentTheme = (updF1 rows s).parentTheme
              rw [hs2]
          · apply fix_pass2_of
            intro k hk hkne pe' hfpe'
            have h0 : (updF2 rows (updF1 rows s)).parentEpic = some k := hk
            rw [updF2_parentEpic, updF1_parentEpic, hke] at h0
            obtain rfl : ke = k := Option.some.inj h0
            rw [hfe] at hfpe'
            exact absurd hfpe' (by simp)
        | some pe =>
          have hL1 : isL1 pe = true :=
            linkTargetOk_elim rows s.parentEpic isL1 hok2s ke hke hkene pe hfe
          have hpemem : pe ∈ rows := findByKey_mem rows ke pe hfe
          have hs2 : updF2 rows (updF1 rows s) =
              app2 (updF1 rows s) (updF1 rows pe) := by
            apply updF2_found rows _ ke pe ?_ hkene hfe
            rw [updF1_parentEpic]
            exact hke
          refine ⟨?_, ?_, hfix3⟩
          · apply fix1_from_member rows hwf pe hpemem
            · show (updF2 rows (updF1 rows s)).parentInitiative = pe.parentInitiative
              rw [hs2]
              show (updF1 rows pe).parentInitiative = pe.parentInitiative
              rw [updF1_parentInitiative]
            · show (updF2 rows (updF1 rows s)).parentInitiativeName =
                (updF1 rows pe).parentInitiativeName
              rw [hs2]
              rfl
            · show (updF2 rows (updF1 rows s)).parentTheme =
                (updF1 rows pe).parentTheme
              rw [hs2]
              rfl
          · apply fix_pass2_of
            intro k hk hkne pe' hfpe'
            have h0 : (updF2 rows (updF1 rows s)).parentEpic = some k := hk
            rw [updF2_parentEpic, updF1_parentEpic, hke] at h0
            obtain rfl : ke = k := Option.some.inj h0
            rw [hfe] at hfpe'
            obtain rfl : pe = pe' := Option.some.inj hfpe'
            refine ⟨hL1, ?_, ?_, ?_, ?_⟩
            · show (updF2 rows (updF1 rows s)).parentEpicName = some pe.summary
              rw [hs2]
              show some (updF1 rows pe).summary = some pe.summary
              rw [updF1_summary]
            · show (updF2 rows (updF1 rows s)).parentInitiative =
                (updF1 rows pe).parentInitiative
              rw [hs2]
              rfl
            · show (updF2 rows (updF1 rows s)).parentInitiativeName =
                (updF1 rows pe).parentInitiativeName
              rw [hs2]
              rfl
            · show (updF2 rows (updF1 rows s)).parentTheme =
                (updF1 rows pe).parentTheme
              rw [hs2]
              rfl
      · have hsE' : truthy s.parentEpic = false := bool_not_true _ hsE
        have hs2 : updF2 rows (updF1 rows s) = updF1 rows s := by
          apply updF2_id
          rw [updF1_parentEpic]
          exact hsE'
        refine ⟨?_, ?_, hfix3⟩
        · apply fix1_from_member rows hwf s hsmem
          · show (updF2 rows (updF1 rows s)).parentInitiative = s.parentInitiative
            rw [hs2, updF1_parentInitiative]
          · show (updF2 rows (updF1 rows s)).parentInitiativeName =
              (updF1 rows s).parentInitiativeName
            rw [hs2]
          · show (updF2 rows (updF1 rows s)).parentTheme = (updF1 rows s).parentTheme
            rw [hs2]
        · apply fix_pass2_of
          intro k hk hkne pe' hfpe'
          have h0 : (updF2 rows (updF1 rows s)).parentEpic = some k := hk
          rw [updF2_parentEpic, updF1_parentEpic] at h0
          exact absurd (truthy_false_elim _ hsE' k h0) hkne
  · have hS' : truthy x.parentStory = false := bool_not_true _ hS
    by_cases hE : truthy x.parentEpic = true
    · obtain ⟨-, hI⟩ := amo_epic x hamo hE
      obtain ⟨ke, hke, hkene⟩ := truthy_true_elim x.parentEpic hE
      have hy : resolveFun rows x = updF2 rows x := resolveFun_eq_updF2 rows x hS' hI
      cases hfe : findByKey rows ke with
      | none =>
        have hy2 : updF2 rows x = x := updF2_notfound rows x ke hke hfe
        rw [hy, hy2]
        refine ⟨updOf_id_of_not_truthy pass1 _ x hI, ?_,
          updOf_id_of_not_truthy pass3 _ x hS'⟩
        apply updOf_notfound pass2 _ x ke hke
        rw [findByKey_resolveMap, hfe]
        rfl
      | some pe =>
        have hL1 : isL1 pe = true :=
          linkTargetOk_elim rows x.parentEpic isL1 hok2 ke hke hkene pe hfe
        have hpemem : pe ∈ rows := findByKey_mem rows ke pe hfe
        have hy2 : updF2 rows x = app2 x (updF1 rows pe) :=
          updF2_found rows x ke pe hke hkene hfe
        rw [hy, hy2]
        refine ⟨?_, ?_, ?_⟩
        · apply fix1_from_member rows hwf pe hpemem
          · show (updF1 rows pe).parentInitiative = pe.parentInitiative
            rw [updF1_parentInitiative]
          · rfl
          · rfl
        · apply fix_pass2_of
          intro k hk hkne' pe' hfpe'
          have h0 : x.parentEpic = some k := hk
          rw [hke] at h0
          obtain rfl : ke = k := Option.some.inj h0
          rw [hfe] at hfpe'
          obtain rfl : pe = pe' := Option.some.inj hfpe'
          refine ⟨hL1, ?_, rfl, rfl, rfl⟩
          show some (updF1 rows pe).summary = some pe.summary
          rw [updF1_summary]
        · apply updOf_id_of_not_truthy pass3
          show truthy x.parentStory = false
          exact hS'
    · have hE' : truthy x.parentEpic = false := bool_not_true _ hE
      have hy : resolveFun rows x = updF1 rows x := resolveFun_eq_updF1 rows x hE' hS'
      rw [hy]
      refine ⟨?_, ?_, ?_⟩
      · apply fix1_from_member rows hwf x hx
        · rw [updF1_parentInitiative]
        · rfl
        · rfl
      · apply fix_pass2_of
        intro k hk hkne pe' hfpe'
        have hk' : x.parentEpic = some k := by
          rw [← updF1_parentEpic rows x]
          exact hk
        exact absurd (truthy_false_elim _ hE' k hk') hkne
      · apply updOf_id_of_not_truthy pass3
        show truthy (updF1 rows x).parentStory = false
        rw [updF1_parentStory]
        exact hS'

/-- Amended C7: the three passes are idempotent on level-respecting
tables — every row carries at most one truthy parent link, and parent
links resolve one level up (initiative targets carry no links, epic
targets at most an initiative link, story targets no story link).  The
counterexample shows the restriction is needed: acyclicity alone does not
suffice. -/
theorem C7_amended_idempotent_of_level_respecting (rows : List Record)
    (hwf : WF rows) :
    resolveHierarchy (resolveHierarchy rows) = resolveHierarchy rows := by
  rw [resolveHierarchy_eq_resolveMap rows hwf]
  have hfix := resolveFun_fixpoints rows hwf
  have hmem : ∀ r ∈ resolveMap rows,
      updOf pass1 (resolveMap rows) r = r ∧ updOf pass2 (resolveMap rows) r = r ∧
      updOf pass3 (resolveMap rows) r = r := by
    intro r hr
    obtain ⟨xp, hxp, hb⟩ := List.mem_map.mp hr
    rw [← hb]
    exact hfix xp hxp
  have h1 : runPass pass1 (resolveMap rows) = resolveMap rows := by
    rw [runPass_eq_map pass1 _ (fun _ _ => rfl)
      (fun r hr k htr hk p hp => (hmem p (findByKey_mem _ k p hp)).1)]
    exact (List.map_congr_left (fun a ha => (hmem a ha).1)).trans (List.map_id _)
  have h2 : runPass pass2 (resolveMap rows) = resolveMap rows := by
    rw [runPass_eq_map pass2 _ (fun _ _ => rfl)
      (fun r hr k htr hk p hp => (hmem p (findByKey_mem _ k p hp)).2.1)]
    exact (List.map_congr_left (fun a ha => (hmem a ha).2.1)).trans (List.map_id _)
  have h3 : runPass pass3 (resolveMap rows) = resolveMap rows := by
    rw [runPass_eq_map pass3 _ (fun _ _ => rfl)
      (fun r hr k htr hk p hp => (hmem p (findByKey_mem _ k p hp)).2.2)]
    exact (List.map_congr_left (fun a ha => (hmem a ha).2.2)).trans (List.map_id _)
  unfold resolveHierarchy
  rw [h1, h2, h3]

/-- Witness for the amended C7: the level-respecting four-row chain
c7wfRows is well formed, and a second resolution run leaves it unchanged. -/
theorem C7_amended_witness :
    WF c7wfRows ∧
    resolveHierarchy (resolveHierarchy c7wfRows) = resolveHierarchy c7wfRows :=
  ⟨by decide, C7_amended_idempotent_of_level_respecting c7wfRows (by decide)⟩
